import Mathlib

/-!
A verification development for the version and file-lifecycle subsystem of the
rocksdb_2pc storage engine.  The C++ sources under db/ and table/ are shallowly
embedded below: machine integers (uint64_t, size_t) become `Nat` (with `Int`
for signed reference counts), internal keys become `Nat` under their comparator
order, shared `FileMetaData*` objects become entries of a store keyed by file
number, and stateful methods become explicit state-passing functions.  External
collaborators that are declared but not defined in the sources (methods of
VersionStorageInfo, the base InternalIterator) are modelled from the
specification and marked as such in their doc comments.
-/

set_option linter.unusedVariables false

namespace RocksTwoPC

/-! ### Generic list helpers -/

/-- Insert `a` into `l` directly before the first element `b` with
`le a b = true`; used to model sorted containers and std::sort. -/
def insertLe {α : Type} (le : α → α → Bool) (a : α) : List α → List α
  | [] => [a]
  | b :: rest => if le a b then a :: b :: rest else b :: insertLe le a rest

/-- Insertion sort by the boolean relation `le`; models the postcondition of
std::sort with a strict-weak-order comparator. -/
def sortLe {α : Type} (le : α → α → Bool) : List α → List α
  | [] => []
  | a :: rest => insertLe le a (sortLe le rest)

/-- Set-style insertion: models std::set / std::unordered_set insert, which is
a no-op when the element is already present. -/
def insertIfAbsent (n : Nat) (l : List Nat) : List Nat :=
  if n ∈ l then l else l ++ [n]

/-! ### File slices and the slice iterator (table/file_slice_iterator.h/.cc) -/

/-- rocksdb::FileSlice (declared in db/version_edit.h, outside src/): a
sub-range of a parent table file.  Fields follow the spec's data model:
parent file reference (by file number), inclusive-largest key range, the
`is_contain_smallest` inclusivity flag, and the output file number the slice
is logically assigned to. -/
structure FileSlice where
  parent_file : Nat
  smallest : Nat
  largest : Nat
  is_contain_smallest : Bool
  output_file_number : Nat
deriving DecidableEq

/-- The status value carried by iterators; `ok` is Status::OK(), the other
constructors stand for the error statuses an underlying file iterator can
carry. -/
inductive IterStatus where
  | ok : IterStatus
  | corruption (msg : String) : IterStatus
  | ioError (msg : String) : IterStatus
  | notSupported (msg : String) : IterStatus
deriving DecidableEq

/-- Modelled from the spec: the wrapped base file iterator (an external
InternalIterator over one immutable sorted table file).  It walks a fixed key
sequence: `SeekIter` positions at the first key not below the target, `nextIter`
advances one position, and `stat` is whatever status the iterator carries. -/
structure BaseFileIter where
  keys : List Nat
  pos : Nat
  stat : IterStatus
deriving DecidableEq

def BaseFileIter.ValidIter (it : BaseFileIter) : Bool :=
  it.pos < it.keys.length

def BaseFileIter.keyAt (it : BaseFileIter) : Nat :=
  it.keys.getD it.pos 0

def BaseFileIter.seekIter (it : BaseFileIter) (target : Nat) : BaseFileIter :=
  { it with pos := it.keys.findIdx (fun k => decide (target ≤ k)) }

def BaseFileIter.nextIter (it : BaseFileIter) : BaseFileIter :=
  { it with pos := it.pos + 1 }

/-- table/file_slice_iterator.h: the decorator holds the slice, the wrapped
iterator and the internal key comparator (the order on `Nat` here). -/
structure FileSliceIterator where
  file_slice : FileSlice
  file_iter : BaseFileIter
deriving DecidableEq

/-- table/file_slice_iterator.cc lines 19-37, FileSliceIterator::Valid:
invalid when the wrapped iterator is invalid, when the key is below the
slice's smallest (or equal to it with `is_contain_smallest` unset), or when
the key is above the slice's largest. -/
def FileSliceIterator.Valid (it : FileSliceIterator) : Bool :=
  if !it.file_iter.ValidIter then false
  else
    let key := it.file_iter.keyAt
    if key < it.file_slice.smallest ∨
        (key = it.file_slice.smallest ∧ !it.file_slice.is_contain_smallest) then false
    else if it.file_slice.largest < key then false
    else true

/-- table/file_slice_iterator.cc lines 79-84, FileSliceIterator::SeekToFirst:
seek the wrapped iterator to the slice's smallest key and, when the smallest
bound is exclusive and the iterator landed exactly on it, advance once. -/
def FileSliceIterator.SeekToFirst (it : FileSliceIterator) : FileSliceIterator :=
  let fi := it.file_iter.seekIter it.file_slice.smallest
  if !it.file_slice.is_contain_smallest ∧ fi.ValidIter ∧ fi.keyAt = it.file_slice.smallest then
    { it with file_iter := fi.nextIter }
  else
    { it with file_iter := fi }

/-- table/file_slice_iterator.cc lines 10-17, the constructor: store the slice
and the wrapped iterator, then SeekToFirst. -/
def FileSliceIterator.construct (file_slice : FileSlice) (file_iter : BaseFileIter) :
    FileSliceIterator :=
  FileSliceIterator.SeekToFirst { file_slice := file_slice, file_iter := file_iter }

/-- table/file_slice_iterator.cc lines 71-73, FileSliceIterator::status:
returns Status::OK() unconditionally. -/
def FileSliceIterator.status (it : FileSliceIterator) : IterStatus :=
  IterStatus.ok

/-! ### Obsolete-file classification (db/db_impl_files.cc, PurgeObsoleteFiles) -/

/-- rocksdb::FileType as produced by ParseFileName. -/
inductive FileType where
  | kLogFile | kDBLockFile | kTableFile | kDescriptorFile | kCurrentFile | kTempFile
  | kInfoLogFile | kMetaDatabase | kIdentityFile | kOptionsFile | kBlobFile
deriving DecidableEq

/-- The fields of the JobContext `state` consulted by the per-candidate
classification in DBImpl::PurgeObsoleteFiles (db/db_impl_files.cc 421-467). -/
structure PurgeState where
  log_number : Nat := 0
  prev_log_number : Nat := 0
  manifest_file_number : Nat := 0
  pending_manifest_file_number : Nat := 0
  min_pending_output : Nat := 0
  sst_live : List Nat := []
  log_recycle_files : List Nat := []
deriving DecidableEq

/-- db/db_impl_files.cc lines 421-467: the keep/delete switch of
PurgeObsoleteFiles.  `optionsNameOccurs` models
`to_delete.find(kOptionsFileNamePrefix) != std::string::npos`. -/
def purgeKeep (s : PurgeState) (ty : FileType) (number : Nat)
    (optionsNameOccurs : Bool) : Bool :=
  match ty with
  | .kLogFile =>
      decide (s.log_number ≤ number) || decide (number = s.prev_log_number) ||
        s.log_recycle_files.contains number
  | .kDescriptorFile => decide (s.manifest_file_number ≤ number)
  | .kTableFile =>
      s.sst_live.contains number || decide (s.min_pending_output ≤ number)
  | .kTempFile =>
      s.sst_live.contains number ||
        decide (number = s.pending_manifest_file_number) || optionsNameOccurs
  | .kInfoLogFile => true
  | .kCurrentFile => true
  | .kDBLockFile => true
  | .kIdentityFile => true
  | .kMetaDatabase => true
  | .kOptionsFile => true
  | .kBlobFile => true

/-- What happens to one candidate after classification. -/
inductive PurgeOutcome where
  | keepFile | archiveWal | scheduledPurge | deleteNow
deriving DecidableEq

/-- db/db_impl_files.cc lines 469-497: the per-candidate effect of
PurgeObsoleteFiles after the switch.  Returns the action taken and whether the
candidate was evicted from the table cache.  A kept file is skipped; a
non-kept table file is evicted from the table cache before deletion; a
non-kept WAL is archived instead of deleted when WAL archival is configured
(`wal_ttl_seconds > 0 || wal_size_limit_mb > 0`); otherwise the file is
scheduled on the purge queue (when `schedule_only`) or deleted now. -/
def purgeAction (s : PurgeState) (ty : FileType) (number : Nat)
    (optionsNameOccurs walArchivalEnabled schedule_only : Bool) :
    PurgeOutcome × Bool :=
  if purgeKeep s ty number optionsNameOccurs then (.keepFile, false)
  else
    let evicted := ty == FileType.kTableFile
    if ty = FileType.kLogFile ∧ walArchivalEnabled then (.archiveWal, evicted)
    else if schedule_only then (.scheduledPurge, evicted)
    else (.deleteNow, evicted)

/-- Lexicographic order on codepoint sequences; the order std::sort uses on
std::string file names. -/
def natListLe : List Nat → List Nat → Bool
  | [], _ => true
  | _ :: _, [] => false
  | x :: xs, y :: ys => if x < y then true else if y < x then false else natListLe xs ys

/-- std::string operator<=: bytewise lexicographic comparison. -/
def strLe (a b : String) : Bool :=
  natListLe (a.data.map Char.toNat) (b.data.map Char.toNat)

/-- db/db_impl_files.cc lines 500-533 (info-log retention pass of
PurgeObsoleteFiles): returns the list of info-log file names the pass deletes.
The source guards with `count != 0 && count >= keep_log_file_num`, sorts
ascending, computes `end = count - keep_log_file_num` and deletes indices
`0 .. end` inclusive.  (When `keep_log_file_num = 0` the source indexes one
past the end and `std::vector::at` throws; `List.take` caps at the length
instead, so theorems about this model assume `1 ≤ keep_log_file_num`.) -/
def deleteOldInfoLogs (old_info_log_files : List String) (keep_log_file_num : Nat) :
    List String :=
  let count := old_info_log_files.length
  if count ≠ 0 ∧ keep_log_file_num ≤ count then
    let sorted := sortLe strLe old_info_log_files
    sorted.take (count - keep_log_file_num + 1)
  else []

/-! ### Full-scan decision (db/db_impl_files.cc, FindObsoleteFiles) -/

/-- db/db_impl_files.cc lines 152-168: whether FindObsoleteFiles performs a
full filesystem scan, and the resulting `delete_obsolete_files_last_run_`
timestamp.  `no_full_scan` wins; else `force` or a zero period forces a scan;
else a scan happens exactly when `last_run + period < now`, and only then is
the timestamp advanced to `now`. -/
def fullScanDecision (no_full_scan force : Bool) (period last_run now : Nat) :
    Bool × Nat :=
  if no_full_scan then (false, last_run)
  else if force || period == 0 then (true, last_run)
  else if last_run + period < now then (true, now)
  else (false, last_run)

/-! ### Two-phase-commit WAL retention (db/db_impl_files.cc lines 22-132) -/

/-- Decrement the value stored under key `k` of a std::map represented as an
association list (`it->second -= 1` on an iterator known to be valid). -/
def mapDecr (m : List (Nat × Nat)) (k : Nat) : List (Nat × Nat) :=
  m.map (fun p => if p.1 = k then (p.1, p.2 - 1) else p)

/-- db/db_impl_files.cc lines 84-101: the tombstone-popping loop of
FindMinLogContainingOutstandingPrep.  The min-heap `min_log_with_prep_` is
represented by the ascending list of its elements, so `top()` is the head and
`pop()` drops it.  While the top's completion count is positive, decrement the
count and pop; otherwise the top is the answer (`0` when the heap runs out).
Returns the answer together with the remaining heap and map. -/
def findMinLoop : List Nat → List (Nat × Nat) → Nat × List Nat × List (Nat × Nat)
  | [], completed => (0, [], completed)
  | top :: rest, completed =>
    match List.lookup top completed with
    | some c =>
      if 0 < c then findMinLoop rest (mapDecr completed top)
      else (top, top :: rest, completed)
    | none => (top, top :: rest, completed)

/-- One column family as seen by FindMinPrepLogReferencedByMemTable: whether it
is dropped, and the minimum prep-section log numbers reported by its immutable
memtable list and its active memtable (0 meaning none). -/
structure ColumnFamilyState where
  dropped : Bool := false
  imm_min_prep_log : Nat := 0
  mem_min_prep_log : Nat := 0
deriving DecidableEq

/-- An entry of the `alive_log_files_` deque: WAL number and size. -/
structure LogFileInfo where
  number : Nat := 0
  size : Nat := 0
deriving DecidableEq

/-- An obsolete SST handed over by VersionSet::GetObsoleteFiles. -/
structure ObsoleteSstFile where
  number : Nat := 0
  path_id : Nat := 0
deriving DecidableEq

/-- The DBImpl state read and written by the functions of db/db_impl_files.cc.
Sorted std::set fields are represented by ascending lists; directory listings
(the results of Env::GetChildren) are carried as fields so the functions stay
pure. -/
structure DBState where
  allow_2pc : Bool := false
  min_log_with_prep : List Nat := []
  prepared_section_completed : List (Nat × Nat) := []
  column_families : List ColumnFamilyState := []
  versions_min_log : Nat := 0
  disable_delete_obsolete_files : Nat := 0
  pending_outputs : List Nat := []
  obsolete_sst_files : List ObsoleteSstFile := []
  obsolete_manifests : List String := []
  live_files : List Nat := []
  manifest_file_number : Nat := 0
  pending_manifest_file_number : Nat := 0
  prev_log_number : Nat := 0
  alive_log_files : List LogFileInfo := []
  logs : List Nat := []
  log_recycle_files : List Nat := []
  logs_to_free : List Nat := []
  total_log_size : Int := 0
  delete_obsolete_files_last_run : Nat := 0
  delete_obsolete_files_period_micros : Nat := 0
  recycle_log_file_num : Nat := 0
  db_paths_children : List (List String) := []
  wal_dir_distinct : Bool := false
  wal_dir_children : List String := []
  db_log_dir_set : Bool := false
  db_log_dir_children : List String := []
deriving DecidableEq

/-- db/db_impl_files.cc lines 22-50, DBImpl::FindMinPrepLogReferencedByMemTable:
0 unless 2PC is enabled; otherwise the running minimum, over non-dropped
column families, of the immutable-memtable and active-memtable minimum
prep-section logs, updating only on a positive value that improves the
current minimum (with 0 meaning "no minimum yet"). -/
def FindMinPrepLogReferencedByMemTable (st : DBState) : Nat :=
  if !st.allow_2pc then 0
  else
    st.column_families.foldl
      (fun min_log cfd =>
        if cfd.dropped then min_log
        else
          let m1 :=
            if 0 < cfd.imm_min_prep_log ∧ (min_log = 0 ∨ cfd.imm_min_prep_log < min_log)
            then cfd.imm_min_prep_log else min_log
          if 0 < cfd.mem_min_prep_log ∧ (m1 = 0 ∨ cfd.mem_min_prep_log < m1)
          then cfd.mem_min_prep_log else m1)
      0

/-- db/db_impl_files.cc lines 72-104, DBImpl::FindMinLogContainingOutstandingPrep:
0 unless 2PC is enabled; otherwise run the tombstone-popping loop over the
prepared heap, returning its answer and the mutated heap/map state. -/
def FindMinLogContainingOutstandingPrep (st : DBState) : Nat × DBState :=
  if !st.allow_2pc then (0, st)
  else
    let r := findMinLoop st.min_log_with_prep st.prepared_section_completed
    (r.1, { st with min_log_with_prep := r.2.1, prepared_section_completed := r.2.2 })

/-- db/db_impl_files.cc lines 106-132, DBImpl::MinLogNumberToKeep: start from
the version set's minimum log; when 2PC is enabled, lower it first by a
nonzero outstanding-prep heap minimum, then by a nonzero memtable prep-log
minimum.  Returns the result together with the state as mutated by the heap
walk. -/
def MinLogNumberToKeep (st : DBState) : Nat × DBState :=
  let log_number := st.versions_min_log
  if st.allow_2pc then
    let pr := FindMinLogContainingOutstandingPrep st
    let ln1 := if pr.1 ≠ 0 ∧ pr.1 < log_number then pr.1 else log_number
    let mr := FindMinPrepLogReferencedByMemTable pr.2
    let ln2 := if mr ≠ 0 ∧ mr < ln1 then mr else ln1
    (ln2, pr.2)
  else (log_number, st)

/-! ### FindObsoleteFiles (db/db_impl_files.cc lines 143-290) -/

/-- The fields of rocksdb::JobContext filled by FindObsoleteFiles. -/
structure JobContext where
  min_pending_output : Nat := 0
  sst_delete_files : List ObsoleteSstFile := []
  manifest_delete_files : List String := []
  manifest_file_number : Nat := 0
  pending_manifest_file_number : Nat := 0
  log_number : Nat := 0
  prev_log_number : Nat := 0
  sst_live : List Nat := []
  full_scan_candidate_files : List (String × Nat) := []
  log_delete_files : List Nat := []
  size_log_to_delete : Nat := 0
  prev_total_log_size : Int := 0
  num_alive_log_files : Nat := 0
  log_recycle_files : List Nat := []
  logs_to_free : List Nat := []
deriving DecidableEq

/-- `std::numeric_limits<uint64_t>::max()`. -/
def UINT64_MAX : Nat := 2 ^ 64 - 1

/-- The accumulator threaded through the alive-WAL reaping loop: recycle list,
log-delete list, byte counters and the captured pre-deletion totals. -/
structure ReapAcc where
  log_recycle_files : List Nat := []
  log_delete_files : List Nat := []
  size_log_to_delete : Nat := 0
  prev_total_log_size : Int := 0
  num_alive_log_files : Nat := 0
  total_log_size : Int := 0
deriving DecidableEq

/-- db/db_impl_files.cc lines 239-266: the loop reaping newly obsolete WALs.
While the oldest alive log's number is below `min_log`, append it to the
recycle list (when under `recycle_cap`) or to the delete list, capture the
pre-deletion totals on the first deletion, account sizes, and pop the deque.
Returns the remaining deque and the accumulator. -/
def reapAliveLogs (recycle_cap min_log num_alive0 : Nat) :
    List LogFileInfo → ReapAcc → List LogFileInfo × ReapAcc
  | [], acc => ([], acc)
  | earliest :: restAlive, acc =>
    if earliest.number < min_log then
      let a1 :=
        if acc.log_recycle_files.length < recycle_cap
        then { acc with log_recycle_files := acc.log_recycle_files ++ [earliest.number] }
        else { acc with log_delete_files := acc.log_delete_files ++ [earliest.number] }
      let a2 :=
        if a1.size_log_to_delete = 0
        then { a1 with prev_total_log_size := a1.total_log_size,
                       num_alive_log_files := num_alive0 }
        else a1
      reapAliveLogs recycle_cap min_log num_alive0 restAlive
        { a2 with size_log_to_delete := a2.size_log_to_delete + earliest.size,
                  total_log_size := a2.total_log_size - earliest.size }
    else (earliest :: restAlive, acc)

/-- db/db_impl_files.cc lines 267-279: pop writers of `logs_` whose number is
below `min_log` into the to-free list.  (The wait on the "log being synced"
condition variable is a concurrency feature; the model assumes no log is being
synced.)  Returns the remaining `logs_` and the freed numbers in pop order. -/
def reapLogs (min_log : Nat) : List Nat → List Nat × List Nat
  | [] => ([], [])
  | n :: rest =>
    if n < min_log then
      let r := reapLogs min_log rest
      (r.1, n :: r.2)
    else (n :: rest, [])

/-- db/db_impl_files.cc lines 143-290, DBImpl::FindObsoleteFiles.  External
calls are modelled from the spec: VersionSet::GetObsoleteFiles hands over the
obsolete SSTs below the pending-output watermark (retaining the rest) and all
obsolete manifests; VersionSet::AddLiveFiles appends the live file numbers;
Env::GetChildren listings are carried as fields of `DBState`; `now` is the
result of Env::NowMicros.  When deletion is disabled the function returns
immediately with everything untouched. -/
def FindObsoleteFiles (st : DBState) (jc : JobContext) (force no_full_scan : Bool)
    (now : Nat) : DBState × JobContext :=
  if 0 < st.disable_delete_obsolete_files then (st, jc)
  else
    let dec := fullScanDecision no_full_scan force
      st.delete_obsolete_files_period_micros st.delete_obsolete_files_last_run now
    let doing_the_full_scan := dec.1
    let st1 := { st with delete_obsolete_files_last_run := dec.2 }
    let min_pending_output :=
      match st1.pending_outputs with
      | [] => UINT64_MAX
      | n :: _ => n
    let jc1 := { jc with min_pending_output := min_pending_output }
    let handed := st1.obsolete_sst_files.filter (fun f => decide (f.number < min_pending_output))
    let retained := st1.obsolete_sst_files.filter (fun f => !decide (f.number < min_pending_output))
    let jc2 := { jc1 with sst_delete_files := jc1.sst_delete_files ++ handed,
                          manifest_delete_files :=
                            jc1.manifest_delete_files ++ st1.obsolete_manifests }
    let st2 := { st1 with obsolete_sst_files := retained, obsolete_manifests := [] }
    let lnRes := MinLogNumberToKeep st2
    let st3 := lnRes.2
    let jc3 := { jc2 with manifest_file_number := st3.manifest_file_number,
                          pending_manifest_file_number := st3.pending_manifest_file_number,
                          log_number := lnRes.1,
                          prev_log_number := st3.prev_log_number,
                          sst_live := jc2.sst_live ++ st3.live_files }
    let jc4 :=
      if doing_the_full_scan then
        let fromPaths := (st3.db_paths_children.enum.map
          (fun p => p.2.map (fun f => ("/" ++ f, p.1)))).flatten
        let fromWal :=
          if st3.wal_dir_distinct then st3.wal_dir_children.map (fun f => (f, 0)) else []
        let fromLogDir :=
          if st3.db_log_dir_set then st3.db_log_dir_children.map (fun f => (f, 0)) else []
        { jc3 with full_scan_candidate_files :=
            jc3.full_scan_candidate_files ++ fromPaths ++ fromWal ++ fromLogDir }
      else jc3
    let reaped :=
      if !st3.alive_log_files.isEmpty ∧ !st3.logs.isEmpty then
        let acc0 : ReapAcc :=
          { log_recycle_files := st3.log_recycle_files,
            log_delete_files := jc4.log_delete_files,
            size_log_to_delete := jc4.size_log_to_delete,
            prev_total_log_size := jc4.prev_total_log_size,
            num_alive_log_files := jc4.num_alive_log_files,
            total_log_size := st3.total_log_size }
        let r := reapAliveLogs st3.recycle_log_file_num jc4.log_number
          st3.alive_log_files.length st3.alive_log_files acc0
        let rl := reapLogs jc4.log_number st3.logs
        ({ st3 with alive_log_files := r.1,
                    log_recycle_files := r.2.log_recycle_files,
                    total_log_size := r.2.total_log_size,
                    logs := rl.1,
                    logs_to_free := st3.logs_to_free ++ rl.2 },
         { jc4 with log_delete_files := r.2.log_delete_files,
                    size_log_to_delete := r.2.size_log_to_delete,
                    prev_total_log_size := r.2.prev_total_log_size,
                    num_alive_log_files := r.2.num_alive_log_files })
      else (st3, jc4)
    let st4 := reaped.1
    let jc5 := reaped.2
    let jc6 := { jc5 with logs_to_free := st4.logs_to_free,
                          log_recycle_files := st4.log_recycle_files }
    ({ st4 with logs_to_free := [] }, jc6)

/-! ### FileMetaData, the shared-object store and VersionStorageInfo -/

/-- rocksdb::FileMetaData (db/version_edit.h, outside src/), with the fields the
builder touches: identity, size, key range, sequence range, the two reference
counts and the attached slice list.  Keys and sequence numbers are `Nat` under
their comparator order; the counts are `Int` because the source decrements them
and asserts non-negativity. -/
structure FileMetaData where
  number : Nat := 0
  file_size : Nat := 0
  smallest : Nat := 0
  largest : Nat := 0
  smallest_seqno : Nat := 0
  largest_seqno : Nat := 0
  refs : Int := 0
  slice_refs : Int := 0
  file_slices : List FileSlice := []
deriving DecidableEq

/-- Shared mutable `FileMetaData*` objects, keyed by file number (file numbers
are unique identifiers, so pointer identity coincides with number equality). -/
def Store : Type := Nat → FileMetaData

/-- Point update of the store: mutate the object with file number `n`. -/
def updStore (st : Store) (n : Nat) (g : FileMetaData → FileMetaData) : Store :=
  fun m => if m = n then g (st m) else st m

/-- A deferred slice-merge request: version_builder.cc line 504,
`MergeTask(level, f->smallest, f->largest)`. -/
structure MergeTask where
  level : Nat
  smallest : Nat
  largest : Nat
deriving DecidableEq

/-- One immutable snapshot (rocksdb::VersionStorageInfo, outside src/): the
per-level file lists (by file number), the frozen-file set and the aggregate
statistics the builder maintains through RemoveCurrentStats. -/
structure VersionStorageInfo where
  files : List (List Nat) := []
  frozen_files : List Nat := []
  stats : Int := 0
deriving DecidableEq

/-- Modelled from the spec (VersionStorageInfo::AddFile is not under src/):
append the file to the level's list; the caller bumps `refs` on the store per
the lifecycle rule "incremented on each snapshot that references it". -/
def VersionStorageInfo.AddFile (v : VersionStorageInfo) (level n : Nat) :
    VersionStorageInfo :=
  { v with files := v.files.set level (v.files.getD level [] ++ [n]) }

/-- Modelled from the spec (VersionStorageInfo::AddFrozenFile is not under
src/): insert the file into the snapshot's frozen-file set. -/
def VersionStorageInfo.AddFrozenFile (v : VersionStorageInfo) (level n : Nat) :
    VersionStorageInfo :=
  { v with frozen_files := insertIfAbsent n v.frozen_files }

/-- Modelled from the spec (VersionStorageInfo::RemoveCurrentStats is not under
src/): "update aggregate stats to remove f" — subtract the file's size from the
snapshot's aggregate statistics. -/
def VersionStorageInfo.RemoveCurrentStats (v : VersionStorageInfo) (f : FileMetaData) :
    VersionStorageInfo :=
  { v with stats := v.stats - (f.file_size : Int) }

/-- Modelled from the spec (VersionStorageInfo::AddFileSlice is not under src/):
attach `slice` to the slice list of the file numbered `n` and increment the
parent file's `slice_refs` ("slice_refs incremented each time a slice carved
from it is added").  The threaded `last_file` pointer does not affect the
modelled state. -/
def addFileSlice (st : Store) (n : Nat) (slice : FileSlice) : Store :=
  let st1 := updStore st n (fun f => { f with file_slices := f.file_slices ++ [slice] })
  updStore st1 slice.parent_file (fun p => { p with slice_refs := p.slice_refs + 1 })

/-! ### The version builder (db/version_builder.cc) -/

/-- db/version_builder.cc lines 38-47: level-0 file order, newest first. -/
def NewestFirstBySeqNo (a b : FileMetaData) : Bool :=
  if a.largest_seqno ≠ b.largest_seqno then decide (b.largest_seqno < a.largest_seqno)
  else if a.smallest_seqno ≠ b.smallest_seqno then decide (b.smallest_seqno < a.smallest_seqno)
  else decide (b.number < a.number)

/-- db/version_builder.cc lines 50-58: non-zero-level file order, by smallest
key then file number. -/
def BySmallestKey (a b : FileMetaData) : Bool :=
  if a.smallest ≠ b.smallest then decide (a.smallest < b.smallest)
  else decide (a.number < b.number)

/-- db/version_builder.cc lines 66-82 (FileComparator): the comparator chosen
for a level, applied to the current store objects. -/
def fileCmp (st : Store) (level : Nat) (a b : Nat) : Bool :=
  if level = 0 then NewestFirstBySeqNo (st a) (st b) else BySmallestKey (st a) (st b)

/-- db/version_builder.cc lines 84-90 (Rep::LevelState): the staged mutations of
one level.  `added_files` keeps file numbers (the metadata lives in the store);
`added_file_slices` is the multimap keyed by output file number;
`added_frozen_files` is the pointer set of moved files, by file number. -/
structure LevelState where
  deleted_files : List Nat := []
  added_files : List Nat := []
  added_file_slices : List (Nat × FileSlice) := []
  added_frozen_files : List Nat := []
deriving DecidableEq

instance : Inhabited LevelState := ⟨{}⟩

/-- rocksdb::VersionEdit (outside src/), with the four collections Apply reads,
in their source representations: moved files and deletions as (level, number)
pairs, new slices as (level, slice) pairs, additions as (level, metadata). -/
structure VersionEdit where
  moved_files : List (Nat × Nat) := []
  new_file_slices : List (Nat × FileSlice) := []
  deleted_files : List (Nat × Nat) := []
  new_files : List (Nat × FileMetaData) := []

/-- db/version_builder.cc lines 92-108 (Rep): the builder's staging state. -/
structure VersionBuilderRep where
  num_levels : Nat
  levels : List LevelState
  invalid_levels : List (Nat × List Nat) := []
  has_invalid_levels : Bool := false

/-- db/version_builder.cc lines 111-125: the Rep constructor over a base
storage with `num_levels` levels. -/
def newBuilder (num_levels : Nat) : VersionBuilderRep :=
  { num_levels := num_levels, levels := List.replicate num_levels {} }

/-- Update the `i`-th element of a list in place (no-op out of range). -/
def modifyAt {α : Type} (l : List α) (i : Nat) (g : α → α) : List α :=
  match l.get? i with
  | some a => l.set i (g a)
  | none => l

/-- The set stored under `level` in the `invalid_levels_` std::map (empty when
absent, as `operator[]` default-constructs). -/
def invGet (m : List (Nat × List Nat)) (level : Nat) : List Nat :=
  (List.lookup level m).getD []

/-- Store `v` under `level` in the `invalid_levels_` map. -/
def invSet (m : List (Nat × List Nat)) (level : Nat) (v : List Nat) :
    List (Nat × List Nat) :=
  if (List.lookup level m).isSome then
    m.map (fun p => if p.1 = level then (level, v) else p)
  else m ++ [(level, v)]

/-- db/version_builder.cc lines 269-347, VersionBuilder::Rep::Apply, staging an
edit in source order: moved-to-frozen inserts, new-slice inserts, deletions
(cancelling a matching staged addition with an unref), then additions (a fresh
metadata object with `refs = 1`, erasing any staged deletion).  On levels at or
beyond `num_levels_` the deletion/addition bookkeeping goes to
`invalid_levels_` / `has_invalid_levels_`.  The debug assertions
(CheckConsistency, CheckConsistencyForDeletes, the duplicate-add assert) abort
on violation and otherwise change no state; they are not modelled. -/
def VersionBuilderRep.Apply (b0 : VersionBuilderRep) (edit : VersionEdit) (st0 : Store) :
    VersionBuilderRep × Store :=
  let b1 := edit.moved_files.foldl
    (fun b mv =>
      if mv.1 < b.num_levels then
        let g := fun ls =>
          { ls with added_frozen_files := insertIfAbsent mv.2 ls.added_frozen_files }
        { b with levels := modifyAt b.levels mv.1 g }
      else b) b0
  let b2 := edit.new_file_slices.foldl
    (fun b fsl =>
      if fsl.1 < b.num_levels then
        let g := fun ls =>
          { ls with added_file_slices :=
              ls.added_file_slices ++ [(fsl.2.output_file_number, fsl.2)] }
        { b with levels := modifyAt b.levels fsl.1 g }
      else b) b1
  let p3 := edit.deleted_files.foldl
    (fun (p : VersionBuilderRep × Store) df =>
      let b := p.1
      let st := p.2
      let level := df.1
      let number := df.2
      if level < b.num_levels then
        let ls0 := b.levels.getD level {}
        let st' :=
          if number ∈ ls0.added_files then
            updStore st number (fun f => { f with refs := f.refs - 1 })
          else st
        let g := fun ls =>
          { ls with deleted_files := insertIfAbsent number ls.deleted_files,
                    added_files := ls.added_files.erase number }
        let b' := { b with levels := modifyAt b.levels level g }
        (b', st')
      else
        let cur := invGet b.invalid_levels level
        if number ∈ cur then
          ({ b with invalid_levels := invSet b.invalid_levels level (cur.erase number) }, st)
        else
          ({ b with has_invalid_levels := true }, st)) (b2, st0)
  edit.new_files.foldl
    (fun (p : VersionBuilderRep × Store) nf =>
      let b := p.1
      let st := p.2
      let level := nf.1
      if level < b.num_levels then
        let f := { nf.2 with refs := 1 }
        let st' : Store := fun m => if m = f.number then f else st m
        let g := fun ls =>
          { ls with deleted_files := ls.deleted_files.erase f.number,
                    added_files := ls.added_files ++ [f.number] }
        let b' := { b with levels := modifyAt b.levels level g }
        (b', st')
      else
        let number := nf.2.number
        let cur := invGet b.invalid_levels level
        if number ∈ cur then ({ b with has_invalid_levels := true }, st)
        else ({ b with invalid_levels := invSet b.invalid_levels level (cur ++ [number]) }, st)) p3

/-- The state threaded through SaveTo: the shared store, the snapshot being
built, the superversion's merge-task set (pointer set: every enqueue inserts)
and the running `last_file` pointer. -/
structure SaveState where
  store : Store
  vstorage : VersionStorageInfo
  merge_tasks : List MergeTask
  last_file : Option Nat

/-- db/version_builder.cc lines 472-509, VersionBuilder::Rep::MaybeAddFile.
A staged-deleted file has its slices' parents' `slice_refs` decremented and its
stats removed; a staged-frozen file goes to the frozen set with its stats
removed; otherwise the file is added to the level (bumping `refs` per AddFile),
the staged slices keyed by its number are attached, and when slices were
attached and the resulting slice count exceeds `merge_threshold` a MergeTask
over the file's key range is enqueued. -/
def maybeAddFile (ls : LevelState) (merge_threshold level : Nat)
    (s : SaveState) (n : Nat) : SaveState :=
  if n ∈ ls.deleted_files then
    let f := s.store n
    let st := f.file_slices.foldl
      (fun st fs => updStore st fs.parent_file
        (fun p => { p with slice_refs := p.slice_refs - 1 })) s.store
    { s with store := st, vstorage := s.vstorage.RemoveCurrentStats f }
  else if n ∈ ls.added_frozen_files then
    { s with vstorage :=
        (s.vstorage.AddFrozenFile level n).RemoveCurrentStats (s.store n) }
  else
    let v := s.vstorage.AddFile level n
    let st0 := updStore s.store n (fun f => { f with refs := f.refs + 1 })
    let keyedSlices := ls.added_file_slices.filter (fun p => p.1 == n)
    let st1 := keyedSlices.foldl (fun st p => addFileSlice st n p.2) st0
    let tasks :=
      if !keyedSlices.isEmpty && decide (merge_threshold < (st1 n).file_slices.length) then
        s.merge_tasks ++ [{ level := level, smallest := (st1 n).smallest,
                            largest := (st1 n).largest }]
      else s.merge_tasks
    { store := st1, vstorage := v, merge_tasks := tasks, last_file := some n }

/-- db/version_builder.cc lines 380-402: the order in which the level loop of
SaveTo feeds files to MaybeAddFile — for each added file (in sorted order),
first the base files strictly before its sort position (std::upper_bound with
the level comparator), then the added file; finally the remaining base files.
The comparator keys (key range, sequence numbers, file number) are never
mutated during a level, so the order is computed against the store at the
start of the level. -/
def mergeStream (cmp : Nat → Nat → Bool) : List Nat → List Nat → List Nat
  | [], base => base
  | a :: rest, base =>
    let pre := base.takeWhile (fun b => !(cmp a b))
    let post := base.dropWhile (fun b => !(cmp a b))
    pre ++ a :: mergeStream cmp rest post

/-- One iteration of the level loop of SaveTo (db/version_builder.cc lines
354-409): sort the staged additions with the level's comparator, feed the
two-way merge with the base level through MaybeAddFile, then insert all staged
frozen files of the level into the new snapshot's frozen set. -/
def processLevel (ls : LevelState) (merge_threshold level : Nat)
    (base_files : List Nat) (s : SaveState) : SaveState :=
  let cmp := fileCmp s.store level
  let added_files := sortLe (fun a b => !(cmp b a)) ls.added_files
  let stream := mergeStream cmp added_files base_files
  let s1 := stream.foldl (maybeAddFile ls merge_threshold level)
    { s with last_file := none }
  let fr1 := ls.added_frozen_files.foldl (fun fr n => insertIfAbsent n fr)
    s1.vstorage.frozen_files
  { s1 with vstorage := { s1.vstorage with frozen_files := fr1 } }

/-- The level loop body of SaveTo: process level `level` of the staging area
over the corresponding base level. -/
def saveLevelStep (b : VersionBuilderRep) (merge_threshold : Nat)
    (base : VersionStorageInfo) (s : SaveState) (level : Nat) : SaveState :=
  processLevel (b.levels.getD level {}) merge_threshold level
    (base.files.getD level []) s

/-- db/version_builder.cc lines 411-416: one step of the frozen carry-forward —
a base frozen file that still has `slice_refs > 0` is inserted into the new
snapshot's frozen set and its `refs` is incremented. -/
def carryFrozenStep (s : SaveState) (n : Nat) : SaveState :=
  if 0 < (s.store n).slice_refs then
    { s with vstorage := { s.vstorage with
                frozen_files := insertIfAbsent n s.vstorage.frozen_files },
             store := updStore s.store n (fun f => { f with refs := f.refs + 1 }) }
  else s

/-- db/version_builder.cc lines 350-419, VersionBuilder::Rep::SaveTo: run the
level loop over a freshly constructed target storage (whose accumulated
statistics start from the base's — the external VersionStorageInfo constructor
copies them, modelled from the spec), then carry forward every base frozen
file that still has `slice_refs > 0`, bumping its `refs`.  CheckConsistency
aborts on violation and otherwise changes no state; it is not modelled. -/
def VersionBuilderRep.SaveTo (b : VersionBuilderRep) (merge_threshold : Nat)
    (st : Store) (base : VersionStorageInfo) (tasks : List MergeTask) : SaveState :=
  let init : SaveState :=
    { store := st,
      vstorage := { files := List.replicate b.num_levels [], frozen_files := [],
                    stats := base.stats },
      merge_tasks := tasks, last_file := none }
  let s := (List.range b.num_levels).foldl (saveLevelStep b merge_threshold base) init
  base.frozen_files.foldl carryFrozenStep s

/-- The file numbers staged as moved-to-frozen on any valid level of the
builder (the union the level loop of SaveTo inserts into the frozen set). -/
def addedFrozenAll (b : VersionBuilderRep) : List Nat :=
  ((List.range b.num_levels).map
    (fun level => (b.levels.getD level {}).added_frozen_files)).flatten

/-- src/unnamed/part_000 lines 9-19: the 2PC compaction options. -/
structure CompactionOptionsTwoPC where
  start_level : Int
  merge_threshold : Nat

/-- src/unnamed/part_000: the default constructor sets `start_level = 1` and
`merge_threshold = 5`. -/
def CompactionOptionsTwoPC.default : CompactionOptionsTwoPC :=
  { start_level := 1, merge_threshold := 5 }

/-! ### Concrete scenarios used by witnesses and counterexamples -/

/-- The S6 scenario of the spec: prepared heap [70, 80], completion map
{70 → 1, 80 → 0}, one column family with immutable-memtable prep-log minimum
75 and active-memtable prep-log minimum 90, version-set minimum log 100. -/
def twoPCScenario : DBState :=
  { allow_2pc := true,
    min_log_with_prep := [70, 80],
    prepared_section_completed := [(70, 1), (80, 0)],
    column_families := [{ dropped := false, imm_min_prep_log := 75, mem_min_prep_log := 90 }],
    versions_min_log := 100 }

/-- A DB state with file deletion disabled. -/
def disabledDeletionState : DBState :=
  { disable_delete_obsolete_files := 1,
    pending_outputs := [200],
    alive_log_files := [{ number := 7, size := 11 }],
    logs := [7],
    total_log_size := 11,
    live_files := [100, 101] }

/-- db/db_impl_files.cc S5-like classification state: live SSTs {100, 101},
pending-output watermark 200. -/
def purgeScenario : PurgeState :=
  { log_number := 50, prev_log_number := 48, manifest_file_number := 30,
    pending_manifest_file_number := 31, min_pending_output := 200,
    sst_live := [100, 101] }

/-- The slice (5, 9] with exclusive smallest bound, used by the iterator
witness. -/
def sliceScenario : FileSlice :=
  { parent_file := 0, smallest := 5, largest := 9,
    is_contain_smallest := false, output_file_number := 0 }

/-- A base file iterator over the ascending keys [3, 5, 9]. -/
def baseIterScenario : BaseFileIter :=
  { keys := [3, 5, 9], pos := 0, stat := IterStatus.ok }

/-- The slice iterator over `sliceScenario` and `baseIterScenario` before any
seek. -/
def sliceIterScenario : FileSliceIterator :=
  { file_slice := sliceScenario, file_iter := baseIterScenario }

/-- The S4 scenario of the spec with `merge_threshold = 2`: file 7 is live at
level 1 with key range [1, 100] and no slices yet; three staged slices keyed
by output file number 7 (the file's own number) cover its range. -/
def mergeScenarioLS : LevelState :=
  { deleted_files := [], added_files := [],
    added_file_slices :=
      [(7, { parent_file := 7, smallest := 1, largest := 30,
             is_contain_smallest := true, output_file_number := 7 }),
       (7, { parent_file := 7, smallest := 31, largest := 60,
             is_contain_smallest := false, output_file_number := 7 }),
       (7, { parent_file := 7, smallest := 61, largest := 100,
             is_contain_smallest := false, output_file_number := 7 })],
    added_frozen_files := [] }

/-- The store for the S4 scenario: file 7 with range [1, 100]. -/
def mergeScenarioStore : Store := fun n =>
  if n = 7 then
    { number := 7, file_size := 10, smallest := 1, largest := 100,
      smallest_seqno := 3, largest_seqno := 4, refs := 1, slice_refs := 0,
      file_slices := [] }
  else {}

/-- The save state for the S4 scenario before file 7 is processed. -/
def mergeScenarioSave : SaveState :=
  { store := mergeScenarioStore,
    vstorage := { files := [[], []], frozen_files := [], stats := 0 },
    merge_tasks := [], last_file := none }

/-- A builder staging a move-to-frozen of file 5 whose `slice_refs` is 0: a
counterexample state for the frozen-set invariant. -/
def frozenZeroBuilder : VersionBuilderRep :=
  { num_levels := 1,
    levels := [{ deleted_files := [], added_files := [], added_file_slices := [],
                 added_frozen_files := [5] }] }

/-- Store for the frozen counterexample: file 5 with no slice references. -/
def frozenZeroStore : Store := fun n =>
  if n = 5 then { number := 5, file_size := 3, slice_refs := 0, refs := 1 } else {}

/-- A one-level base snapshot with no files and no frozen files. -/
def frozenZeroBase : VersionStorageInfo :=
  { files := [[]], frozen_files := [], stats := 0 }

/-- A builder moving base file 10 to frozen while adding file 20 carrying one
slice parented on 10 — after SaveTo the frozen file 10 has `slice_refs = 1`. -/
def frozenOkBuilder : VersionBuilderRep :=
  { num_levels := 1,
    levels := [{ deleted_files := [], added_files := [20],
                 added_file_slices :=
                   [(20, { parent_file := 10, smallest := 1, largest := 50,
                           is_contain_smallest := true, output_file_number := 20 })],
                 added_frozen_files := [10] }] }

/-- Store for the frozen witness: base file 10 and added file 20. -/
def frozenOkStore : Store := fun n =>
  if n = 10 then
    { number := 10, file_size := 8, smallest := 1, largest := 100,
      smallest_seqno := 1, largest_seqno := 2, refs := 1, slice_refs := 0,
      file_slices := [] }
  else if n = 20 then
    { number := 20, file_size := 4, smallest := 1, largest := 50,
      smallest_seqno := 5, largest_seqno := 6, refs := 1, slice_refs := 0,
      file_slices := [] }
  else {}

/-- Base snapshot for the frozen witness: file 10 live at level 0. -/
def frozenOkBase : VersionStorageInfo :=
  { files := [[10]], frozen_files := [], stats := 8 }

/-- Round-trip witness data: base snapshot with file 40 at level 1 and frozen
file 17. -/
def roundTripBase : VersionStorageInfo :=
  { files := [[], [40]], frozen_files := [17], stats := 6 }

/-- Round-trip witness store: live file 40, frozen parent 17 with one slice
reference. -/
def roundTripStore : Store := fun n =>
  if n = 40 then
    { number := 40, file_size := 6, smallest := 1, largest := 5,
      smallest_seqno := 1, largest_seqno := 2, refs := 1, slice_refs := 0,
      file_slices := [] }
  else if n = 17 then
    { number := 17, file_size := 9, refs := 1, slice_refs := 1 }
  else {}

/-- The file added and then deleted again in the round-trip witness. -/
def roundTripFile : FileMetaData :=
  { number := 30, file_size := 2, smallest := 10, largest := 20,
    smallest_seqno := 7, largest_seqno := 8 }

/-! ### Theorems -/

/-- C9: FileSliceIterator::status() returns Status::OK() in every iterator
state, whatever error status the wrapped file iterator carries. -/
theorem file_slice_status_always_ok :
    ∀ it : FileSliceIterator, it.status = IterStatus.ok := by
  intro it
  rfl

/-- C1: in PurgeObsoleteFiles a candidate parsed as a table file is kept
(no deletion, no scheduled purge, no table-cache eviction) exactly when its
number is in the live SST set or at least the captured `min_pending_output`;
a table file satisfying neither condition is evicted and classified delete
(immediately or through the purge queue). -/
theorem purge_table_keep_iff :
    ∀ (s : PurgeState) (number : Nat)
      (optionsNameOccurs walArchivalEnabled schedule_only : Bool),
      (purgeKeep s FileType.kTableFile number optionsNameOccurs = true ↔
        (number ∈ s.sst_live ∨ s.min_pending_output ≤ number)) ∧
      ((purgeAction s FileType.kTableFile number optionsNameOccurs walArchivalEnabled
          schedule_only = (PurgeOutcome.keepFile, false)) ↔
        (number ∈ s.sst_live ∨ s.min_pending_output ≤ number)) ∧
      (¬ (number ∈ s.sst_live ∨ s.min_pending_output ≤ number) →
        purgeAction s FileType.kTableFile number optionsNameOccurs walArchivalEnabled
          schedule_only =
          ((if schedule_only then PurgeOutcome.scheduledPurge else PurgeOutcome.deleteNow),
            true)) := by
  intro s number opts wal so
  have hk : purgeKeep s FileType.kTableFile number opts = true ↔
      (number ∈ s.sst_live ∨ s.min_pending_output ≤ number) := by
    simp [purgeKeep]
  by_cases h : number ∈ s.sst_live ∨ s.min_pending_output ≤ number
  · refine ⟨hk, ?_, fun hc => absurd h hc⟩
    simp [purgeAction, hk.mpr h, h]
  · have hkf : purgeKeep s FileType.kTableFile number opts = false := by
      cases hb : purgeKeep s FileType.kTableFile number opts
      · rfl
      · exact absurd (hk.mp hb) h
    refine ⟨hk, ?_, fun _ => ?_⟩
    · simp only [purgeAction, hkf]
      push_neg at h
      cases wal <;> cases so <;> simp <;> exact h
    · simp only [purgeAction, hkf]
      cases wal <;> cases so <;> simp

/-- C1 witness: a concrete non-live table file below the watermark is evicted
and deleted. -/
theorem purge_table_keep_iff_witness :
    ¬ ((150 : Nat) ∈ purgeScenario.sst_live ∨ purgeScenario.min_pending_output ≤ 150) ∧
    purgeAction purgeScenario FileType.kTableFile 150 false false false =
      (PurgeOutcome.deleteNow, true) := by
  refine ⟨by decide, ?_⟩
  have h := (purge_table_keep_iff purgeScenario 150 false false false).2.2 (by decide)
  simpa using h

/-- C7 counterexample: with period 10, last run 0 and now 10 we have
`now - last_run ≥ period`, yet the source performs no full scan — the timed
branch uses the strict comparison `last_run + period < now`. -/
theorem full_scan_decision_counterexample :
    ¬ ((fullScanDecision false false 10 0 10).1 = true ↔ 10 - 0 ≥ 10) := by
  decide

/-- C7 (amended): with `no_full_scan` no scan happens; otherwise `force` or a
zero period yields a scan (without touching the timestamp); otherwise a scan
happens iff `now - last_run > period` (strictly), and exactly then the
timestamp advances to `now`. -/
theorem full_scan_decision_amended :
    (∀ (force : Bool) (period last_run now : Nat),
        fullScanDecision true force period last_run now = (false, last_run)) ∧
    (∀ (period last_run now : Nat),
        fullScanDecision false true period last_run now = (true, last_run)) ∧
    (∀ (force : Bool) (last_run now : Nat),
        fullScanDecision false force 0 last_run now = (true, last_run)) ∧
    (∀ (period last_run now : Nat), period ≠ 0 →
        fullScanDecision false false period last_run now =
          (if period < now - last_run then (true, now) else (false, last_run))) := by
  refine ⟨fun f p l n2 => rfl, fun p l n2 => rfl, ?_, ?_⟩
  · intro f l n2
    cases f <;> rfl
  · intro p l n2 hp
    have harith : (l + p < n2) ↔ (p < n2 - l) := by omega
    simp only [fullScanDecision, Bool.false_or, beq_iff_eq]
    rw [if_neg hp]
    by_cases hc : l + p < n2
    · rw [if_pos hc, if_pos (harith.mp hc)]
      rfl
    · rw [if_neg hc, if_neg (fun hh => hc (harith.mpr hh))]
      rfl

/-- C7 witness: a concrete timed-branch run where the period has elapsed. -/
theorem full_scan_decision_amended_witness :
    fullScanDecision false false 10 0 25 =
      (if (10 : Nat) < 25 - 0 then (true, 25) else (false, 0)) :=
  full_scan_decision_amended.2.2.2 10 0 25 (by decide)

/-- The insertion step of `sortLe` preserves length. -/
theorem length_insertLe {α : Type} (le : α → α → Bool) (a : α) (l : List α) :
    (insertLe le a l).length = l.length + 1 := by
  induction l with
  | nil => rfl
  | cons b rest ih =>
    simp only [insertLe]
    by_cases hc : le a b = true
    · rw [if_pos hc]
      rfl
    · rw [if_neg hc]
      simp [ih]

/-- `sortLe` preserves length. -/
theorem length_sortLe {α : Type} (le : α → α → Bool) (l : List α) :
    (sortLe le l).length = l.length := by
  induction l with
  | nil => rfl
  | cons a rest ih =>
    simp only [sortLe]
    rw [length_insertLe, ih]
    rfl

/-- C6 counterexample: the info-log retention pass deletes `count - keep + 1`
oldest entries once `count ≥ keep` — with three collected logs and
`keep_log_file_num = 2` it deletes two (the claim predicts one), and with two
collected logs it still deletes one although the count does not exceed keep. -/
theorem info_log_retention_counterexample :
    deleteOldInfoLogs ["LOG.old.1", "LOG.old.2", "LOG.old.3"] 2 =
      ["LOG.old.1", "LOG.old.2"] ∧
    deleteOldInfoLogs ["LOG.old.1", "LOG.old.2"] 2 = ["LOG.old.1"] := by
  decide

/-- C6 (amended): with `keep_log_file_num ≥ 1`, the pass deletes exactly the
oldest `count - keep_log_file_num + 1` entries of the ascending-sorted list
when `count ≥ keep_log_file_num`, and nothing when `count < keep_log_file_num`. -/
theorem info_log_retention_amended :
    ∀ (files : List String) (keep : Nat), 1 ≤ keep →
      (deleteOldInfoLogs files keep =
        (if keep ≤ files.length then
          (sortLe strLe files).take (files.length - keep + 1)
        else [])) ∧
      (files.length < keep → deleteOldInfoLogs files keep = []) ∧
      (keep ≤ files.length →
        (deleteOldInfoLogs files keep).length = files.length - keep + 1) := by
  intro files keep hkeep
  refine ⟨?_, ?_, ?_⟩
  · simp only [deleteOldInfoLogs]
    by_cases hc : keep ≤ files.length
    · rw [if_pos ⟨by omega, hc⟩, if_pos hc]
    · rw [if_neg (fun hh => hc hh.2), if_neg hc]
  · intro hlt
    simp only [deleteOldInfoLogs]
    rw [if_neg (fun hh => by omega)]
  · intro hle
    simp only [deleteOldInfoLogs]
    rw [if_pos ⟨by omega, hle⟩]
    rw [List.length_take, length_sortLe]
    omega

/-- C6 witness: two collected logs with `keep_log_file_num = 1` delete the two
oldest... exactly `2 - 1 + 1 = 2` entries. -/
theorem info_log_retention_amended_witness :
    deleteOldInfoLogs ["LOG.old.9", "LOG.old.8"] 1 =
      (if (1 : Nat) ≤ (["LOG.old.9", "LOG.old.8"] : List String).length then
        (sortLe strLe ["LOG.old.9", "LOG.old.8"]).take
          ((["LOG.old.9", "LOG.old.8"] : List String).length - 1 + 1)
      else []) :=
  (info_log_retention_amended ["LOG.old.9", "LOG.old.8"] 1 (by decide)).1

/-- C10: when `disable_delete_obsolete_files_ > 0`, FindObsoleteFiles returns
immediately — the DB state (alive-log deque, recycle list, total log size,
full-scan timestamp, version-set lists) and the job context are unchanged. -/
theorem find_obsolete_files_disabled_noop :
    ∀ (st : DBState) (jc : JobContext) (force no_full_scan : Bool) (now : Nat),
      0 < st.disable_delete_obsolete_files →
      FindObsoleteFiles st jc force no_full_scan now = (st, jc) := by
  intro st jc force no_full_scan now h
  unfold FindObsoleteFiles
  rw [if_pos h]

/-- C10 witness: a concrete disabled state is left untouched. -/
theorem find_obsolete_files_disabled_noop_witness :
    0 < disabledDeletionState.disable_delete_obsolete_files ∧
    FindObsoleteFiles disabledDeletionState {} true false 42 =
      (disabledDeletionState, {}) :=
  ⟨by decide, find_obsolete_files_disabled_noop disabledDeletionState {} true false 42
    (by decide)⟩

/-- The heap walk touches only the prepared heap and its completion map. -/
theorem findPrep_preserves_cf_fields (st : DBState) :
    (FindMinLogContainingOutstandingPrep st).2.allow_2pc = st.allow_2pc ∧
    (FindMinLogContainingOutstandingPrep st).2.column_families = st.column_families := by
  unfold FindMinLogContainingOutstandingPrep
  by_cases h : st.allow_2pc = false <;> simp [h]

/-- FindMinPrepLogReferencedByMemTable reads only the 2PC flag and the column
family set. -/
theorem findMemPrep_congr {s t : DBState} (h1 : s.allow_2pc = t.allow_2pc)
    (h2 : s.column_families = t.column_families) :
    FindMinPrepLogReferencedByMemTable s = FindMinPrepLogReferencedByMemTable t := by
  unfold FindMinPrepLogReferencedByMemTable
  rw [h1, h2]

/-- C2: with 2PC enabled, MinLogNumberToKeep is the minimum of the version
set's minimum log, the outstanding-prep heap minimum and the memtable prep-log
minimum, a zero from either of the latter two meaning "no constraint"; and on
the S6 scenario (heap [70,80], completions {70 → 1, 80 → 0}, memtable minima
90 active / 75 immutable, version-set minimum 100) the heap walk returns 80,
the memtable scan returns 75, and MinLogNumberToKeep returns 75. -/
theorem min_log_number_to_keep_2pc :
    (∀ st : DBState, st.allow_2pc = true →
      (MinLogNumberToKeep st).1 =
        min st.versions_min_log
          (min
            (if (FindMinLogContainingOutstandingPrep st).1 = 0 then st.versions_min_log
             else (FindMinLogContainingOutstandingPrep st).1)
            (if FindMinPrepLogReferencedByMemTable st = 0 then st.versions_min_log
             else FindMinPrepLogReferencedByMemTable st))) ∧
    (FindMinLogContainingOutstandingPrep twoPCScenario).1 = 80 ∧
    FindMinPrepLogReferencedByMemTable twoPCScenario = 75 ∧
    (MinLogNumberToKeep twoPCScenario).1 = 75 := by
  refine ⟨?_, by decide, by decide, by decide⟩
  intro st h
  have hcf := findPrep_preserves_cf_fields st
  unfold MinLogNumberToKeep
  rw [h]
  have hmem : FindMinPrepLogReferencedByMemTable (FindMinLogContainingOutstandingPrep st).2 =
      FindMinPrepLogReferencedByMemTable st :=
    findMemPrep_congr hcf.1 hcf.2
  simp only [if_true, hmem]
  generalize (FindMinLogContainingOutstandingPrep st).1 = p
  generalize FindMinPrepLogReferencedByMemTable st = m
  generalize st.versions_min_log = v
  split_ifs <;> omega

/-- C2 witness: the general minimum formula instantiated on the S6 scenario. -/
theorem min_log_number_to_keep_2pc_witness :
    twoPCScenario.allow_2pc = true ∧
    (MinLogNumberToKeep twoPCScenario).1 =
      min twoPCScenario.versions_min_log
        (min
          (if (FindMinLogContainingOutstandingPrep twoPCScenario).1 = 0 then
            twoPCScenario.versions_min_log
           else (FindMinLogContainingOutstandingPrep twoPCScenario).1)
          (if FindMinPrepLogReferencedByMemTable twoPCScenario = 0 then
            twoPCScenario.versions_min_log
           else FindMinPrepLogReferencedByMemTable twoPCScenario)) :=
  ⟨rfl, min_log_number_to_keep_2pc.1 twoPCScenario rfl⟩

/-- On a strictly ascending key list, the first position with key strictly
above `s` is one past the first position with key at least `s` when that
position holds exactly `s`, and coincides with it otherwise. -/
theorem findIdx_gt_of_sorted (s : Nat) :
    ∀ keys : List Nat, keys.Pairwise (· < ·) →
      keys.findIdx (fun k => decide (s < k)) =
        (if keys.findIdx (fun k => decide (s ≤ k)) < keys.length ∧
            keys.getD (keys.findIdx (fun k => decide (s ≤ k))) 0 = s
         then keys.findIdx (fun k => decide (s ≤ k)) + 1
         else keys.findIdx (fun k => decide (s ≤ k))) := by
  intro keys
  induction keys with
  | nil => intro _; simp
  | cons k rest ih =>
    intro hp
    have hhead : ∀ x ∈ rest, k < x := (List.pairwise_cons.mp hp).1
    have hrest := (List.pairwise_cons.mp hp).2
    rcases Nat.lt_trichotomy k s with hlt | heq | hgt
    · have h1 : (decide (s ≤ k)) = false := by simp; omega
      have h2 : (decide (s < k)) = false := by simp; omega
      rw [List.findIdx_cons, List.findIdx_cons, h1, h2]
      simp only [cond_false]
      rw [ih hrest]
      by_cases hc : rest.findIdx (fun k => decide (s ≤ k)) < rest.length ∧
          rest.getD (rest.findIdx (fun k => decide (s ≤ k))) 0 = s
      · rw [if_pos hc, if_pos (by simpa using hc)]
      · rw [if_neg hc, if_neg (by simpa using hc)]
    · subst heq
      have h1 : (decide (k ≤ k)) = true := by simp
      have h2 : (decide (k < k)) = false := by simp
      rw [List.findIdx_cons, List.findIdx_cons, h1, h2]
      simp only [cond_true, cond_false]
      have hzero : rest.findIdx (fun x => decide (k < x)) = 0 := by
        cases rest with
        | nil => simp
        | cons r rs =>
          have : (decide (k < r)) = true := by
            simp
            exact hhead r (by simp)
          rw [List.findIdx_cons, this]
          rfl
      rw [hzero]
      rw [if_pos ⟨by simp, by simp⟩]
    · have h1 : (decide (s ≤ k)) = true := by simp; omega
      have h2 : (decide (s < k)) = true := by simp; omega
      rw [List.findIdx_cons, List.findIdx_cons, h1, h2]
      simp only [cond_true]
      rw [if_neg ?hne]
      case hne =>
        intro hc
        have : k = s := by simpa using hc.2
        omega

/-- C8: FileSliceIterator::Valid holds exactly when the wrapped iterator is
valid and its key lies inside the slice (strictly above `smallest`, or equal
to it when `is_contain_smallest`, and at most `largest`); and construction —
which runs SeekToFirst — leaves the wrapped iterator (over strictly ascending
keys) at the first key `≥ smallest` when the bound is inclusive, and at the
first key `> smallest` otherwise (one advance past a key equal to
`smallest`). -/
theorem file_slice_iterator_valid_and_seek :
    (∀ it : FileSliceIterator,
      it.Valid = true ↔
        (it.file_iter.ValidIter = true ∧
          (it.file_slice.smallest < it.file_iter.keyAt ∨
            (it.file_iter.keyAt = it.file_slice.smallest ∧
              it.file_slice.is_contain_smallest = true)) ∧
          it.file_iter.keyAt ≤ it.file_slice.largest)) ∧
    (∀ slice : FileSlice, ∀ fi : BaseFileIter,
      FileSliceIterator.construct slice fi =
        FileSliceIterator.SeekToFirst { file_slice := slice, file_iter := fi }) ∧
    (∀ it : FileSliceIterator, it.file_iter.keys.Pairwise (· < ·) →
      (it.SeekToFirst.file_iter.keys = it.file_iter.keys ∧
        it.SeekToFirst.file_iter.pos =
          (if it.file_slice.is_contain_smallest then
            it.file_iter.keys.findIdx (fun k => decide (it.file_slice.smallest ≤ k))
           else
            it.file_iter.keys.findIdx (fun k => decide (it.file_slice.smallest < k))))) := by
  refine ⟨?_, fun slice fi => rfl, ?_⟩
  · intro it
    rcases it with ⟨⟨pf, s, l, cont, ofn⟩, fi⟩
    simp only [FileSliceIterator.Valid]
    cases hv : fi.ValidIter
    · simp
    · cases cont
      · simp only [hv, Bool.not_true, Bool.false_eq_true, if_false, true_and,
          Bool.not_false, and_true, and_false, or_false]
        constructor
        · intro hc
          split_ifs at hc with h1 h2
          push_neg at h1
          omega
        · intro hc
          rw [if_neg (by omega), if_neg (by omega)]
      · simp only [hv, Bool.not_true, Bool.false_eq_true, if_false, true_and,
          Bool.not_false, and_true, and_false, or_false]
        constructor
        · intro hc
          split_ifs at hc with h1 h2
          push_neg at h1
          omega
        · intro hc
          rw [if_neg (by omega), if_neg (by omega)]
  · intro it hs
    have hkeys : (it.file_iter.seekIter it.file_slice.smallest).keys = it.file_iter.keys :=
      rfl
    have hpos : (it.file_iter.seekIter it.file_slice.smallest).pos =
        it.file_iter.keys.findIdx (fun k => decide (it.file_slice.smallest ≤ k)) := rfl
    cases hcont : it.file_slice.is_contain_smallest
    · simp only [FileSliceIterator.SeekToFirst, Bool.false_eq_true, if_false]
      rw [findIdx_gt_of_sorted it.file_slice.smallest it.file_iter.keys hs]
      by_cases hC : it.file_iter.keys.findIdx
            (fun k => decide (it.file_slice.smallest ≤ k)) < it.file_iter.keys.length ∧
          it.file_iter.keys.getD
            (it.file_iter.keys.findIdx (fun k => decide (it.file_slice.smallest ≤ k))) 0 =
            it.file_slice.smallest
      · have hcond : (!it.file_slice.is_contain_smallest) = true ∧
            (it.file_iter.seekIter it.file_slice.smallest).ValidIter = true ∧
            (it.file_iter.seekIter it.file_slice.smallest).keyAt = it.file_slice.smallest := by
          refine ⟨by simp [hcont], ?_, ?_⟩
          · simp only [BaseFileIter.ValidIter, hpos, hkeys]
            simpa using hC.1
          · simp only [BaseFileIter.keyAt, hpos, hkeys]
            exact hC.2
        rw [if_pos hcond, if_pos hC]
        exact ⟨rfl, rfl⟩
      · have hcond : ¬ ((!it.file_slice.is_contain_smallest) = true ∧
            (it.file_iter.seekIter it.file_slice.smallest).ValidIter = true ∧
            (it.file_iter.seekIter it.file_slice.smallest).keyAt = it.file_slice.smallest) := by
          intro hh
          refine hC ⟨?_, ?_⟩
          · have := hh.2.1
            simp only [BaseFileIter.ValidIter, hpos, hkeys] at this
            simpa using this
          · have := hh.2.2
            simp only [BaseFileIter.keyAt, hpos, hkeys] at this
            exact this
        rw [if_neg hcond, if_neg hC]
        exact ⟨rfl, rfl⟩
    · have hcond : ¬ ((!it.file_slice.is_contain_smallest) = true ∧
          (it.file_iter.seekIter it.file_slice.smallest).ValidIter = true ∧
          (it.file_iter.seekIter it.file_slice.smallest).keyAt = it.file_slice.smallest) := by
        simp [hcont]
      simp only [FileSliceIterator.SeekToFirst]
      rw [if_neg hcond]
      simp only [hcont, if_true]
      exact ⟨rfl, rfl⟩

/-- C8 witness: the slice (5, 9] over keys [3, 5, 9]: SeekToFirst lands on
the first key strictly above 5 (one advance past the key equal to 5). -/
theorem file_slice_iterator_valid_and_seek_witness :
    sliceIterScenario.file_iter.keys.Pairwise (· < ·) ∧
    (sliceIterScenario.SeekToFirst.file_iter.keys = sliceIterScenario.file_iter.keys ∧
      sliceIterScenario.SeekToFirst.file_iter.pos =
        (if sliceIterScenario.file_slice.is_contain_smallest then
          sliceIterScenario.file_iter.keys.findIdx
            (fun k => decide (sliceIterScenario.file_slice.smallest ≤ k))
         else
          sliceIterScenario.file_iter.keys.findIdx
            (fun k => decide (sliceIterScenario.file_slice.smallest < k)))) :=
  ⟨by decide, file_slice_iterator_valid_and_seek.2.2 sliceIterScenario (by decide)⟩

/-- Attaching one slice to file `n` appends it to that file's slice list and
changes no file's key range. -/
theorem addFileSlice_at_self (st : Store) (n : Nat) (p : FileSlice) :
    ((addFileSlice st n p) n).file_slices = (st n).file_slices ++ [p] ∧
    ((addFileSlice st n p) n).smallest = (st n).smallest ∧
    ((addFileSlice st n p) n).largest = (st n).largest := by
  unfold addFileSlice updStore
  by_cases h : n = p.parent_file <;> simp [h]

/-- Folding slice attachments over file `n` grows its slice list by one entry
per attachment and leaves its key range unchanged. -/
theorem foldl_addFileSlice_at_self (n : Nat) :
    ∀ (slices : List (Nat × FileSlice)) (st : Store),
      ((slices.foldl (fun st p => addFileSlice st n p.2) st) n).file_slices.length =
        (st n).file_slices.length + slices.length ∧
      ((slices.foldl (fun st p => addFileSlice st n p.2) st) n).smallest =
        (st n).smallest ∧
      ((slices.foldl (fun st p => addFileSlice st n p.2) st) n).largest =
        (st n).largest := by
  intro slices
  induction slices with
  | nil => intro st; exact ⟨rfl, rfl, rfl⟩
  | cons p rest ih =>
    intro st
    simp only [List.foldl_cons]
    have hstep := addFileSlice_at_self st n p.2
    have hrest := ih (addFileSlice st n p.2)
    refine ⟨?_, ?_, ?_⟩
    · rw [hrest.1, hstep.1]
      simp only [List.length_append, List.length_cons, List.length_nil]
      omega
    · rw [hrest.2.1, hstep.2.1]
    · rw [hrest.2.2, hstep.2.2]

/-- C5: when MaybeAddFile keeps a file live (not staged-deleted, not
staged-frozen) and staged slices keyed by its number exist, a MergeTask over
the file's level and key range is enqueued exactly when the resulting slice
count exceeds `merge_threshold`; with a resulting count at most the threshold
the merge-task set is unchanged.  The threshold's configured default
(CompactionOptionsTwoPC) is 5. -/
theorem maybe_add_file_merge_task :
    CompactionOptionsTwoPC.default.merge_threshold = 5 ∧
    (∀ (ls : LevelState) (merge_threshold level : Nat) (s : SaveState) (n : Nat),
      n ∉ ls.deleted_files → n ∉ ls.added_frozen_files →
      (ls.added_file_slices.filter (fun p => p.1 == n)) ≠ [] →
      ((merge_threshold < (s.store n).file_slices.length +
          (ls.added_file_slices.filter (fun p => p.1 == n)).length →
        (maybeAddFile ls merge_threshold level s n).merge_tasks =
          s.merge_tasks ++ [{ level := level, smallest := (s.store n).smallest,
                              largest := (s.store n).largest }]) ∧
       ((s.store n).file_slices.length +
          (ls.added_file_slices.filter (fun p => p.1 == n)).length ≤ merge_threshold →
        (maybeAddFile ls merge_threshold level s n).merge_tasks = s.merge_tasks))) := by
  refine ⟨rfl, ?_⟩
  intro ls merge_threshold level s n hdel hfro hslices
  simp only [maybeAddFile]
  rw [if_neg hdel, if_neg hfro]
  have hbump : ((updStore s.store n (fun f => { f with refs := f.refs + 1 })) n).file_slices =
      (s.store n).file_slices ∧
      ((updStore s.store n (fun f => { f with refs := f.refs + 1 })) n).smallest =
        (s.store n).smallest ∧
      ((updStore s.store n (fun f => { f with refs := f.refs + 1 })) n).largest =
        (s.store n).largest := by
    unfold updStore
    simp
  have hfold := foldl_addFileSlice_at_self n
    (ls.added_file_slices.filter (fun p => p.1 == n))
    (updStore s.store n (fun f => { f with refs := f.refs + 1 }))
  have hempty : (ls.added_file_slices.filter (fun p => p.1 == n)).isEmpty = false := by
    cases hfi : ls.added_file_slices.filter (fun p => p.1 == n) with
    | nil => exact absurd hfi hslices
    | cons a rest => simp [hfi]
  constructor
  · intro hlt
    rw [if_pos ?hcnd]
    case hcnd =>
      rw [hempty]
      simp only [Bool.not_false, Bool.true_and]
      rw [decide_eq_true_eq]
      rw [hfold.1, hbump.1]
      omega
    rw [hfold.2.1, hfold.2.2, hbump.2.1, hbump.2.2]
  · intro hle
    rw [if_neg ?hcnd2]
    case hcnd2 =>
      rw [hempty]
      simp only [Bool.not_false, Bool.true_and]
      rw [decide_eq_true_eq]
      rw [hfold.1, hbump.1]
      omega

/-- C5 witness: the S4 scenario with threshold 2 — three slices attach to file
7 and MergeTask (level 1, [1, 100]) is enqueued. -/
theorem maybe_add_file_merge_task_witness :
    (7 : Nat) ∉ mergeScenarioLS.deleted_files ∧
    (7 : Nat) ∉ mergeScenarioLS.added_frozen_files ∧
    (mergeScenarioLS.added_file_slices.filter (fun p => p.1 == 7)) ≠ [] ∧
    (2 : Nat) < (mergeScenarioSave.store 7).file_slices.length +
      (mergeScenarioLS.added_file_slices.filter (fun p => p.1 == 7)).length ∧
    (maybeAddFile mergeScenarioLS 2 1 mergeScenarioSave 7).merge_tasks =
      mergeScenarioSave.merge_tasks ++
        [{ level := 1, smallest := (mergeScenarioSave.store 7).smallest,
           largest := (mergeScenarioSave.store 7).largest }] :=
  ⟨by decide, by decide, by decide, by decide,
   ((maybe_add_file_merge_task.2 mergeScenarioLS 2 1 mergeScenarioSave 7
      (by decide) (by decide) (by decide)).1 (by decide))⟩

/-- Membership in a set-style insertion. -/
theorem mem_insertIfAbsent {x n : Nat} {l : List Nat} :
    x ∈ insertIfAbsent n l ↔ x ∈ l ∨ x = n := by
  unfold insertIfAbsent
  by_cases h : n ∈ l
  · rw [if_pos h]
    constructor
    · exact Or.inl
    · rintro (hx | rfl)
      · exact hx
      · exact h
  · rw [if_neg h]
    simp

/-- Elements produced by folding set-insertions come from the accumulator or
the inserted list. -/
theorem mem_foldl_insertIfAbsent :
    ∀ (lst fr0 : List Nat) (x : Nat),
      x ∈ lst.foldl (fun fr n => insertIfAbsent n fr) fr0 → x ∈ fr0 ∨ x ∈ lst := by
  intro lst
  induction lst with
  | nil => intro fr0 x hx; exact Or.inl hx
  | cons a rest ih =>
    intro fr0 x hx
    simp only [List.foldl_cons] at hx
    rcases ih (insertIfAbsent a fr0) x hx with h | h
    · rcases mem_insertIfAbsent.mp h with h | rfl
      · exact Or.inl h
      · exact Or.inr (by simp)
    · exact Or.inr (by simp [h])

/-- MaybeAddFile enlarges the frozen set only by files staged as frozen on the
level. -/
theorem maybeAddFile_frozen_from (ls : LevelState) (th level : Nat)
    (s : SaveState) (n : Nat) :
    ∀ x ∈ (maybeAddFile ls th level s n).vstorage.frozen_files,
      x ∈ s.vstorage.frozen_files ∨ x ∈ ls.added_frozen_files := by
  intro x hx
  simp only [maybeAddFile] at hx
  split_ifs at hx with h1 h2
  · simp only [VersionStorageInfo.RemoveCurrentStats] at hx
    exact Or.inl hx
  · simp only [VersionStorageInfo.RemoveCurrentStats,
      VersionStorageInfo.AddFrozenFile] at hx
    rcases mem_insertIfAbsent.mp hx with h | rfl
    · exact Or.inl h
    · exact Or.inr h2
  · exact Or.inl (by simpa [VersionStorageInfo.AddFile] using hx)
  · exact Or.inl (by simpa [VersionStorageInfo.AddFile] using hx)

/-- The merge fold of one level enlarges the frozen set only by files staged
as frozen on the level. -/
theorem foldl_maybeAddFile_frozen_from (ls : LevelState) (th level : Nat) :
    ∀ (stream : List Nat) (s : SaveState),
      ∀ x ∈ (stream.foldl (maybeAddFile ls th level) s).vstorage.frozen_files,
        x ∈ s.vstorage.frozen_files ∨ x ∈ ls.added_frozen_files := by
  intro stream
  induction stream with
  | nil => intro s x hx; exact Or.inl hx
  | cons a rest ih =>
    intro s x hx
    simp only [List.foldl_cons] at hx
    rcases ih (maybeAddFile ls th level s a) x hx with h | h
    · exact maybeAddFile_frozen_from ls th level s a x h
    · exact Or.inr h

/-- processLevel enlarges the frozen set only by files staged as frozen on the
level. -/
theorem processLevel_frozen_from (ls : LevelState) (th level : Nat)
    (bf : List Nat) (s : SaveState) :
    ∀ x ∈ (processLevel ls th level bf s).vstorage.frozen_files,
      x ∈ s.vstorage.frozen_files ∨ x ∈ ls.added_frozen_files := by
  intro x hx
  simp only [processLevel] at hx
  rcases mem_foldl_insertIfAbsent ls.added_frozen_files _ x hx with h | h
  · have h2 := foldl_maybeAddFile_frozen_from ls th level
      (mergeStream (fileCmp s.store level)
        (sortLe (fun a b => !(fileCmp s.store level b a)) ls.added_files) bf)
      { s with last_file := none } x h
    exact h2
  · exact Or.inr h

/-- The level loop of SaveTo enlarges the frozen set only by files staged as
frozen on one of the visited levels. -/
theorem levelsFold_frozen_from (b : VersionBuilderRep) (th : Nat)
    (base : VersionStorageInfo) :
    ∀ (idxs : List Nat) (s : SaveState),
      ∀ x ∈ (idxs.foldl (saveLevelStep b th base) s).vstorage.frozen_files,
        x ∈ s.vstorage.frozen_files ∨
          ∃ level ∈ idxs, x ∈ (b.levels.getD level {}).added_frozen_files := by
  intro idxs
  induction idxs with
  | nil => intro s x hx; exact Or.inl hx
  | cons a rest ih =>
    intro s x hx
    simp only [List.foldl_cons] at hx
    rcases ih (saveLevelStep b th base s a) x hx with h | h
    · rcases processLevel_frozen_from _ th a _ _ x h with h2 | h2
      · exact Or.inl h2
      · exact Or.inr ⟨a, by simp, h2⟩
    · rcases h with ⟨level, hlv, hmem⟩
      exact Or.inr ⟨level, by simp [hlv], hmem⟩

/-- The frozen carry-forward never changes any file's `slice_refs`. -/
theorem carryFold_slice_refs (fr : List Nat) :
    ∀ (s : SaveState) (m : Nat),
      ((fr.foldl carryFrozenStep s).store m).slice_refs = (s.store m).slice_refs := by
  induction fr with
  | nil => intro s m; rfl
  | cons a rest ih =>
    intro s m
    simp only [List.foldl_cons]
    rw [ih (carryFrozenStep s a) m]
    simp only [carryFrozenStep]
    split_ifs with h
    · simp only [updStore]
      by_cases hm : m = a <;> simp [hm]
    · rfl

/-- Every file the carry-forward adds to the frozen set has positive
`slice_refs` in the final store. -/
theorem carryFold_frozen_from (fr : List Nat) :
    ∀ (s : SaveState), ∀ x ∈ (fr.foldl carryFrozenStep s).vstorage.frozen_files,
      x ∈ s.vstorage.frozen_files ∨
        0 < ((fr.foldl carryFrozenStep s).store x).slice_refs := by
  induction fr with
  | nil => intro s x hx; exact Or.inl hx
  | cons a rest ih =>
    intro s x hx
    simp only [List.foldl_cons] at hx ⊢
    rcases ih (carryFrozenStep s a) x hx with h | h
    · by_cases hc : 0 < (s.store a).slice_refs
      · simp only [carryFrozenStep, if_pos hc] at h
        rcases mem_insertIfAbsent.mp h with h2 | hxe
        · exact Or.inl h2
        · refine Or.inr ?_
          rw [carryFold_slice_refs rest (carryFrozenStep s a) x, hxe]
          simp only [carryFrozenStep, if_pos hc, updStore]
          simpa using hc
      · simp only [carryFrozenStep, if_neg hc] at h
        exact Or.inl h
    · exact Or.inr h

/-- Membership in the union of staged frozen files over the valid levels. -/
theorem mem_addedFrozenAll {b : VersionBuilderRep} {x : Nat} :
    x ∈ addedFrozenAll b ↔
      ∃ level ∈ List.range b.num_levels,
        x ∈ (b.levels.getD level {}).added_frozen_files := by
  unfold addedFrozenAll
  simp only [List.mem_flatten, List.mem_map]
  constructor
  · rintro ⟨l, ⟨level, hlv, rfl⟩, hx⟩
    exact ⟨level, hlv, hx⟩
  · rintro ⟨level, hlv, hx⟩
    exact ⟨_, ⟨level, hlv, rfl⟩, hx⟩

/-- C3 counterexample: SaveTo from a builder that moves a file with
`slice_refs = 0` to frozen produces a snapshot whose frozen set violates the
claimed invariant. -/
theorem frozen_slice_refs_counterexample :
    ¬ (∀ n ∈ (frozenZeroBuilder.SaveTo 5 frozenZeroStore frozenZeroBase
          []).vstorage.frozen_files,
        0 < ((frozenZeroBuilder.SaveTo 5 frozenZeroStore frozenZeroBase
          []).store n).slice_refs) := by
  decide

/-- C3 (amended): every file carried into the frozen set from the base has
`slice_refs > 0`, but files newly moved to frozen are inserted without any
check; the invariant holds for every snapshot produced by SaveTo exactly under
the precondition that every staged moved-to-frozen file ends the batch with
`slice_refs > 0`. -/
theorem frozen_slice_refs_amended :
    ∀ (b : VersionBuilderRep) (th : Nat) (st : Store) (base : VersionStorageInfo)
      (tasks : List MergeTask),
      (∀ n ∈ addedFrozenAll b,
        0 < ((b.SaveTo th st base tasks).store n).slice_refs) →
      ∀ n ∈ (b.SaveTo th st base tasks).vstorage.frozen_files,
        0 < ((b.SaveTo th st base tasks).store n).slice_refs := by
  intro b th st base tasks H n hn
  simp only [VersionBuilderRep.SaveTo] at hn
  rcases carryFold_frozen_from base.frozen_files _ n hn with h | h
  · rcases levelsFold_frozen_from b th base (List.range b.num_levels) _ n h with h2 | h2
    · simp at h2
    · exact H n (mem_addedFrozenAll.mpr h2)
  · simpa [VersionBuilderRep.SaveTo] using h

/-- C3 witness: moving file 10 to frozen while an added file carries a slice
parented on it — every staged frozen file ends with positive `slice_refs`, and
so does every member of the produced frozen set. -/
theorem frozen_slice_refs_amended_witness :
    (∀ n ∈ addedFrozenAll frozenOkBuilder,
      0 < ((frozenOkBuilder.SaveTo 5 frozenOkStore frozenOkBase []).store n).slice_refs) ∧
    (∀ n ∈ (frozenOkBuilder.SaveTo 5 frozenOkStore frozenOkBase
        []).vstorage.frozen_files,
      0 < ((frozenOkBuilder.SaveTo 5 frozenOkStore frozenOkBase []).store n).slice_refs) :=
  ⟨by decide,
   frozen_slice_refs_amended frozenOkBuilder 5 frozenOkStore frozenOkBase [] (by decide)⟩

/-- `getD` after setting the same index. -/
theorem listGetD_set_self {α : Type} (l : List α) {i : Nat} (v d : α)
    (h : i < l.length) : (l.set i v).getD i d = v := by
  rw [List.getD_eq_getElem?_getD, List.getElem?_set_self h]
  rfl

/-- `getD` after setting a different index. -/
theorem listGetD_set_ne {α : Type} (l : List α) {i j : Nat} (v d : α)
    (h : i ≠ j) : (l.set i v).getD j d = l.getD j d := by
  rw [List.getD_eq_getElem?_getD, List.getElem?_set_ne h,
    ← List.getD_eq_getElem?_getD]

/-- Setting an index to its own value is the identity. -/
theorem listSet_getD_self (l : List (List Nat)) {i : Nat} (h : i < l.length) :
    l.set i (l.getD i []) = l := by
  apply List.ext_getElem?
  intro j
  by_cases hj : i = j
  · subst hj
    rw [List.getElem?_set_self h, List.getD_eq_getElem?_getD,
      List.getElem?_eq_getElem h]
    simp
  · exact List.getElem?_set_ne hj

/-- `getElem?` within range as `some` of the `getD` value. -/
theorem listGetElem?_eq_some_getD (l : List (List Nat)) {j : Nat}
    (h : j < l.length) : l[j]? = some (l.getD j []) := by
  rw [List.getElem?_eq_getElem h, List.getD_eq_getElem?_getD,
    List.getElem?_eq_getElem h]
  rfl

/-- `modifyAt` preserves length. -/
theorem modifyAt_length (l : List LevelState) (i : Nat) (g : LevelState → LevelState) :
    (modifyAt l i g).length = l.length := by
  unfold modifyAt
  cases h : l.get? i <;> simp

/-- `modifyAt` at the modified index. -/
theorem modifyAt_getD_self (l : List LevelState) {i : Nat} (g : LevelState → LevelState)
    (h : i < l.length) : (modifyAt l i g).getD i {} = g (l.getD i {}) := by
  unfold modifyAt
  have h2 : l.get? i = some (l.getD i {}) := by
    rw [List.get?_eq_getElem?, List.getElem?_eq_getElem h, List.getD_eq_getElem?_getD,
      List.getElem?_eq_getElem h]
    rfl
  rw [h2]
  exact listGetD_set_self l (g (l.getD i {})) {} h

/-- `modifyAt` away from the modified index. -/
theorem modifyAt_getD_ne (l : List LevelState) {i j : Nat} (g : LevelState → LevelState)
    (h : j ≠ i) : (modifyAt l i g).getD j {} = l.getD j {} := by
  unfold modifyAt
  cases hg : l.get? i
  · rfl
  · rw [List.getD_eq_getElem?_getD, List.getElem?_set_ne (fun hh => h hh.symm),
      ← List.getD_eq_getElem?_getD]

/-- `getD` of a replicated list of empty level states. -/
theorem replicate_getD (nl i : Nat) :
    (List.replicate nl ({} : LevelState)).getD i {} = {} := by
  rw [List.getD_eq_getElem?_getD, List.getElem?_replicate]
  split <;> rfl

/-- The builder state and store after applying the add-f edit followed by the
delete-f edit to a fresh builder: level L stages exactly the deletion of f's
number, every other level is untouched, and the store holds f with its refs
driven back to 0. -/
theorem c4_builder_shape (nl L : Nat) (f : FileMetaData) (st : Store) (hL : L < nl) :
    (((newBuilder nl).Apply { new_files := [(L, f)] } st).1.Apply
        { deleted_files := [(L, f.number)] }
        ((newBuilder nl).Apply { new_files := [(L, f)] } st).2).1.num_levels = nl ∧
    (∀ lvl,
      (((newBuilder nl).Apply { new_files := [(L, f)] } st).1.Apply
          { deleted_files := [(L, f.number)] }
          ((newBuilder nl).Apply { new_files := [(L, f)] } st).2).1.levels.getD lvl {} =
        (if lvl = L then { deleted_files := [f.number] } else ({} : LevelState))) ∧
    (∀ m,
      (((newBuilder nl).Apply { new_files := [(L, f)] } st).1.Apply
          { deleted_files := [(L, f.number)] }
          ((newBuilder nl).Apply { new_files := [(L, f)] } st).2).2 m =
        (if m = f.number then { f with refs := 0 } else st m)) := by
  have h1 : (newBuilder nl).Apply { new_files := [(L, f)] } st =
      ({ num_levels := nl,
         levels := modifyAt (List.replicate nl {}) L (fun ls => { ls with deleted_files := ls.deleted_files.erase f.number, added_files := ls.added_files ++ [f.number] }),
         invalid_levels := [], has_invalid_levels := false },
       fun m => if m = f.number then ({ f with refs := 1 } : FileMetaData) else st m) := by
    simp only [VersionBuilderRep.Apply, newBuilder, List.foldl_nil, List.foldl_cons]
    rw [if_pos hL]
  rw [h1]
  have hget : (modifyAt (List.replicate nl ({} : LevelState)) L (fun ls => { ls with deleted_files := ls.deleted_files.erase f.number, added_files := ls.added_files ++ [f.number] })).getD L {} =
      { deleted_files := [], added_files := [f.number], added_file_slices := [], added_frozen_files := [] } := by
    rw [modifyAt_getD_self _ _ (by simpa using hL), replicate_getD]
    rfl
  have h2 : ({ num_levels := nl,
               levels := modifyAt (List.replicate nl {}) L (fun ls => { ls with deleted_files := ls.deleted_files.erase f.number, added_files := ls.added_files ++ [f.number] }),
               invalid_levels := [], has_invalid_levels := false } :
        VersionBuilderRep).Apply { deleted_files := [(L, f.number)] }
      (fun m => if m = f.number then ({ f with refs := 1 } : FileMetaData) else st m) =
      ({ num_levels := nl,
         levels := modifyAt (modifyAt (List.replicate nl {}) L (fun ls => { ls with deleted_files := ls.deleted_files.erase f.number, added_files := ls.added_files ++ [f.number] })) L (fun ls => { ls with deleted_files := insertIfAbsent f.number ls.deleted_files, added_files := ls.added_files.erase f.number }),
         invalid_levels := [], has_invalid_levels := false },
       fun m => if m = f.number then ({ f with refs := 0 } : FileMetaData) else st m) := by
    simp only [VersionBuilderRep.Apply, List.foldl_nil, List.foldl_cons]
    rw [if_pos hL]
    rw [hget]
    have hmem : f.number ∈ ({ deleted_files := [], added_files := [f.number], added_file_slices := [], added_frozen_files := [] } : LevelState).added_files := by
      simp
    rw [if_pos hmem]
    refine congrArg₂ Prod.mk rfl ?_
    funext m
    simp only [updStore]
    by_cases hm : m = f.number
    · simp [hm]
    · simp [hm]
  rw [h2]
  refine ⟨rfl, ?_, fun m => rfl⟩
  intro lvl
  by_cases hlv : lvl = L
  · subst hlv
    rw [modifyAt_getD_self _ _ (by rw [modifyAt_length]; simpa using hL), hget]
    simp [insertIfAbsent]
  · rw [modifyAt_getD_ne _ _ hlv, modifyAt_getD_ne _ _ hlv, replicate_getD]
    rw [if_neg hlv]

/-- A live file with no staged slices passes through MaybeAddFile as a pure
level append: the file is appended to its level, `refs` is bumped, and the
frozen set, statistics, merge tasks and every `slice_refs` are untouched. -/
theorem maybeAddFile_live (ls : LevelState) (th lvl : Nat) (s : SaveState) (n : Nat)
    (hsl : ls.added_file_slices = []) (hd : n ∉ ls.deleted_files)
    (hf : n ∉ ls.added_frozen_files) :
    maybeAddFile ls th lvl s n =
      { store := updStore s.store n (fun f => { f with refs := f.refs + 1 }),
        vstorage := s.vstorage.AddFile lvl n,
        merge_tasks := s.merge_tasks, last_file := some n } := by
  simp only [maybeAddFile, hsl]
  rw [if_neg hd, if_neg hf]
  simp

/-- The merge fold of a level whose staging area holds no additions, slices or
frozen moves, over a stream disjoint from its staged deletions, appends the
stream to the level and changes nothing else observable. -/
theorem foldl_maybeAddFile_passthrough (ls : LevelState) (th lvl : Nat)
    (hsl : ls.added_file_slices = []) :
    ∀ (stream : List Nat) (s : SaveState),
      (∀ n ∈ stream, n ∉ ls.deleted_files ∧ n ∉ ls.added_frozen_files) →
      lvl < s.vstorage.files.length →
      ((stream.foldl (maybeAddFile ls th lvl) s).vstorage.files =
          s.vstorage.files.set lvl (s.vstorage.files.getD lvl [] ++ stream)) ∧
      (stream.foldl (maybeAddFile ls th lvl) s).vstorage.frozen_files =
          s.vstorage.frozen_files ∧
      (stream.foldl (maybeAddFile ls th lvl) s).vstorage.stats = s.vstorage.stats ∧
      (stream.foldl (maybeAddFile ls th lvl) s).merge_tasks = s.merge_tasks ∧
      (∀ m, ((stream.foldl (maybeAddFile ls th lvl) s).store m).slice_refs =
          (s.store m).slice_refs) := by
  intro stream
  induction stream with
  | nil =>
    intro s hmiss hlen
    refine ⟨?_, rfl, rfl, rfl, fun m => rfl⟩
    simp only [List.foldl_nil]
    rw [List.append_nil, listSet_getD_self _ hlen]
  | cons n rest ih =>
    intro s hmiss hlen
    simp only [List.foldl_cons]
    have hn := hmiss n (by simp)
    rw [maybeAddFile_live ls th lvl s n hsl hn.1 hn.2]
    have hlen2 : lvl < (s.vstorage.AddFile lvl n).files.length := by
      simp only [VersionStorageInfo.AddFile, List.length_set]
      exact hlen
    obtain ⟨h1, h2, h3, h4, h5⟩ := ih
      { store := updStore s.store n (fun f => { f with refs := f.refs + 1 }),
        vstorage := s.vstorage.AddFile lvl n,
        merge_tasks := s.merge_tasks, last_file := some n }
      (fun x hx => hmiss x (by simp [hx])) hlen2
    refine ⟨?_, h2, h3, h4, ?_⟩
    · rw [h1]
      simp only [VersionStorageInfo.AddFile]
      rw [listGetD_set_self _ _ _ hlen, List.set_set, List.append_assoc,
        List.singleton_append]
    · intro m
      rw [h5 m]
      simp only [updStore]
      by_cases hm : m = n <;> simp [hm]

/-- One inert level of SaveTo (no staged additions, slices or frozen moves;
base files disjoint from staged deletions) copies the base level into the new
snapshot and touches nothing else observable. -/
theorem saveLevelStep_passthrough (b : VersionBuilderRep) (th : Nat)
    (base : VersionStorageInfo) (s : SaveState) (i : Nat)
    (hempty : (b.levels.getD i {}).added_files = [] ∧
      (b.levels.getD i {}).added_file_slices = [] ∧
      (b.levels.getD i {}).added_frozen_files = [])
    (hmiss : ∀ n ∈ base.files.getD i [], n ∉ (b.levels.getD i {}).deleted_files)
    (hlen : i < s.vstorage.files.length) :
    ((saveLevelStep b th base s i).vstorage.files =
        s.vstorage.files.set i (s.vstorage.files.getD i [] ++ base.files.getD i [])) ∧
    (saveLevelStep b th base s i).vstorage.frozen_files = s.vstorage.frozen_files ∧
    (saveLevelStep b th base s i).vstorage.stats = s.vstorage.stats ∧
    (saveLevelStep b th base s i).merge_tasks = s.merge_tasks ∧
    (∀ m, ((saveLevelStep b th base s i).store m).slice_refs =
        (s.store m).slice_refs) := by
  have hstream : mergeStream (fileCmp s.store i)
      (sortLe (fun a c => !(fileCmp s.store i c a)) (b.levels.getD i {}).added_files)
      (base.files.getD i []) = base.files.getD i [] := by
    rw [hempty.1]
    rfl
  simp only [saveLevelStep, processLevel, hempty.2.2, List.foldl_nil]
  rw [hempty.1]
  have hfold := foldl_maybeAddFile_passthrough (b.levels.getD i {}) th i hempty.2.1
    (mergeStream (fileCmp s.store i)
      (sortLe (fun a c => !(fileCmp s.store i c a)) [])
      (base.files.getD i []))
    { s with last_file := none }
    (by
      intro n hn
      have hn2 : n ∈ base.files.getD i [] := by
        simpa using hn
      exact ⟨hmiss n hn2, by rw [hempty.2.2]; simp⟩)
    hlen
  have hstr2 : mergeStream (fileCmp s.store i)
      (sortLe (fun a c => !(fileCmp s.store i c a)) [])
      (base.files.getD i []) = base.files.getD i [] := rfl
  rw [hstr2] at hfold
  exact hfold

/-- The level loop of SaveTo over inert levels: the snapshot's file lists are
exactly the per-index copies of the base levels, everything else observable is
unchanged. -/
theorem levelsFold_passthrough (b : VersionBuilderRep) (th : Nat)
    (base : VersionStorageInfo)
    (hempty : ∀ lvl, (b.levels.getD lvl {}).added_files = [] ∧
        (b.levels.getD lvl {}).added_file_slices = [] ∧
        (b.levels.getD lvl {}).added_frozen_files = [])
    (hmiss : ∀ lvl, ∀ n ∈ base.files.getD lvl [], n ∉ (b.levels.getD lvl {}).deleted_files) :
    ∀ (idxs : List Nat) (s : SaveState),
      (∀ i ∈ idxs, i < s.vstorage.files.length) →
      ((idxs.foldl (saveLevelStep b th base) s).vstorage.files =
          idxs.foldl (fun fl i => fl.set i (fl.getD i [] ++ base.files.getD i []))
            s.vstorage.files) ∧
      (idxs.foldl (saveLevelStep b th base) s).vstorage.frozen_files =
          s.vstorage.frozen_files ∧
      (idxs.foldl (saveLevelStep b th base) s).vstorage.stats = s.vstorage.stats ∧
      (idxs.foldl (saveLevelStep b th base) s).merge_tasks = s.merge_tasks ∧
      (∀ m, ((idxs.foldl (saveLevelStep b th base) s).store m).slice_refs =
          (s.store m).slice_refs) := by
  intro idxs
  induction idxs with
  | nil => intro s _; exact ⟨rfl, rfl, rfl, rfl, fun m => rfl⟩
  | cons i rest ih =>
    intro s hidx
    simp only [List.foldl_cons]
    have hi : i < s.vstorage.files.length := hidx i (by simp)
    obtain ⟨g1, g2, g3, g4, g5⟩ :=
      saveLevelStep_passthrough b th base s i (hempty i) (hmiss i) hi
    have hlen2 : ∀ j ∈ rest, j < (saveLevelStep b th base s i).vstorage.files.length := by
      intro j hj
      rw [g1, List.length_set]
      exact hidx j (by simp [hj])
    obtain ⟨h1, h2, h3, h4, h5⟩ := ih (saveLevelStep b th base s i) hlen2
    refine ⟨?_, h2.trans g2, h3.trans g3, h4.trans g4, ?_⟩
    · rw [h1, g1]
    · intro m
      rw [h5 m, g5 m]

/-- Folding the per-level copies over `range k`, pointwise: indices below `k`
hold the base level, the rest are untouched; the length is preserved. -/
theorem foldl_set_range_pointwise (bfs : List (List Nat)) :
    ∀ (k : Nat) (fl : List (List Nat)),
      k ≤ fl.length →
      (∀ j, j < k → fl.getD j [] = []) →
      (((List.range k).foldl
          (fun fl i => fl.set i (fl.getD i [] ++ bfs.getD i [])) fl).length =
        fl.length) ∧
      (∀ j, ((List.range k).foldl
          (fun fl i => fl.set i (fl.getD i [] ++ bfs.getD i [])) fl).getD j [] =
        if j < k then bfs.getD j [] else fl.getD j []) := by
  intro k
  induction k with
  | zero =>
    intro fl _ _
    exact ⟨rfl, fun j => by simp⟩
  | succ k ih =>
    intro fl hk hempty
    rw [List.range_succ, List.foldl_append]
    obtain ⟨ihlen, ihget⟩ := ih fl (by omega) (fun j hj => hempty j (by omega))
    simp only [List.foldl_cons, List.foldl_nil]
    constructor
    · rw [List.length_set, ihlen]
    · intro j
      by_cases hj : j = k
      · subst hj
        rw [listGetD_set_self _ _ _ (by rw [ihlen]; omega)]
        rw [ihget j, if_neg (by omega), hempty j (by omega)]
        rw [List.nil_append, if_pos (by omega)]
      · rw [listGetD_set_ne _ _ _ (fun hh => hj hh.symm), ihget j]
        by_cases hlt : j < k
        · rw [if_pos hlt, if_pos (by omega)]
        · rw [if_neg hlt, if_neg (by omega)]

/-- Folding the per-level copies over `range nl`, starting from `nl` empty
levels, reproduces the base file lists exactly. -/
theorem range_fold_eq_base (bfs : List (List Nat)) (nl : Nat)
    (hlen : bfs.length = nl) :
    (List.range nl).foldl (fun fl i => fl.set i (fl.getD i [] ++ bfs.getD i []))
      (List.replicate nl []) = bfs := by
  obtain ⟨hflen, hfget⟩ := foldl_set_range_pointwise bfs nl (List.replicate nl [])
    (by simp)
    (fun j hj => by
      rw [List.getD_eq_getElem?_getD, List.getElem?_replicate, if_pos hj]
      rfl)
  apply List.ext_getElem?
  intro j
  by_cases hj : j < nl
  · rw [listGetElem?_eq_some_getD _ (by rw [hflen, List.length_replicate]; exact hj),
      listGetElem?_eq_some_getD bfs (by omega), hfget j, if_pos hj]
  · rw [List.getElem?_eq_none (by rw [hflen, List.length_replicate]; omega),
      List.getElem?_eq_none (by omega)]

/-- Carrying forward a duplicate-free list of base frozen files, all with
positive `slice_refs` and none already frozen, appends them in order and
leaves the file lists and statistics alone. -/
theorem carryFold_passthrough :
    ∀ (fr : List Nat) (s : SaveState),
      (∀ n ∈ fr, 0 < (s.store n).slice_refs) → fr.Nodup →
      (∀ n ∈ fr, n ∉ s.vstorage.frozen_files) →
      ((fr.foldl carryFrozenStep s).vstorage.frozen_files =
          s.vstorage.frozen_files ++ fr) ∧
      (fr.foldl carryFrozenStep s).vstorage.files = s.vstorage.files ∧
      (fr.foldl carryFrozenStep s).vstorage.stats = s.vstorage.stats := by
  intro fr
  induction fr with
  | nil => intro s _ _ _; exact ⟨by simp, rfl, rfl⟩
  | cons a rest ih =>
    intro s hpos hnd hnin
    simp only [List.foldl_cons]
    have hca : carryFrozenStep s a =
        { store := updStore s.store a (fun f => { f with refs := f.refs + 1 }),
          vstorage := { files := s.vstorage.files,
                        frozen_files := insertIfAbsent a s.vstorage.frozen_files,
                        stats := s.vstorage.stats },
          merge_tasks := s.merge_tasks, last_file := s.last_file } := by
      unfold carryFrozenStep
      rw [if_pos (hpos a (by simp))]
    have hins : insertIfAbsent a s.vstorage.frozen_files =
        s.vstorage.frozen_files ++ [a] := by
      unfold insertIfAbsent
      rw [if_neg (hnin a (by simp))]
    obtain ⟨h1, h2, h3⟩ := ih (carryFrozenStep s a)
      (fun n hn => by
        rw [hca]
        simp only [updStore]
        by_cases hna : n = a
        · simp only [hna, if_pos rfl]
          exact hpos a (by simp)
        · rw [if_neg hna]
          exact hpos n (by simp [hn]))
      (List.nodup_cons.mp hnd).2
      (fun n hn => by
        rw [hca]
        simp only [hins]
        intro hmem
        rcases List.mem_append.mp hmem with hmem | hmem
        · exact hnin n (by simp [hn]) hmem
        · have : n = a := by simpa using hmem
          exact (List.nodup_cons.mp hnd).1 (this ▸ hn))
    refine ⟨?_, ?_, ?_⟩
    · rw [h1, hca]
      simp only [hins]
      rw [List.append_assoc, List.singleton_append]
    · rw [h2, hca]
    · rw [h3, hca]

/-- C4: applying to a fresh builder an edit adding file f at level L, then an
edit deleting f's number at level L, and then SaveTo, reproduces the base
snapshot exactly — same per-level file lists, same frozen set, same
statistics — whenever f's number occurs nowhere in the base (and the base is a
well-formed snapshot: as many level lists as levels, a duplicate-free frozen
set whose members have `slice_refs > 0`, the spec's invariant 5). -/
theorem add_delete_round_trip :
    ∀ (nl L : Nat) (f : FileMetaData) (base : VersionStorageInfo) (st : Store)
      (th : Nat) (tasks : List MergeTask),
      L < nl →
      base.files.length = nl →
      (∀ lvlFiles ∈ base.files, f.number ∉ lvlFiles) →
      f.number ∉ base.frozen_files →
      base.frozen_files.Nodup →
      (∀ n ∈ base.frozen_files, 0 < (st n).slice_refs) →
      ((((newBuilder nl).Apply { new_files := [(L, f)] } st).1.Apply
          { deleted_files := [(L, f.number)] }
          ((newBuilder nl).Apply { new_files := [(L, f)] } st).2).1.SaveTo th
        (((newBuilder nl).Apply { new_files := [(L, f)] } st).1.Apply
          { deleted_files := [(L, f.number)] }
          ((newBuilder nl).Apply { new_files := [(L, f)] } st).2).2
        base tasks).vstorage.files = base.files ∧
      ((((newBuilder nl).Apply { new_files := [(L, f)] } st).1.Apply
          { deleted_files := [(L, f.number)] }
          ((newBuilder nl).Apply { new_files := [(L, f)] } st).2).1.SaveTo th
        (((newBuilder nl).Apply { new_files := [(L, f)] } st).1.Apply
          { deleted_files := [(L, f.number)] }
          ((newBuilder nl).Apply { new_files := [(L, f)] } st).2).2
        base tasks).vstorage.frozen_files = base.frozen_files ∧
      ((((newBuilder nl).Apply { new_files := [(L, f)] } st).1.Apply
          { deleted_files := [(L, f.number)] }
          ((newBuilder nl).Apply { new_files := [(L, f)] } st).2).1.SaveTo th
        (((newBuilder nl).Apply { new_files := [(L, f)] } st).1.Apply
          { deleted_files := [(L, f.number)] }
          ((newBuilder nl).Apply { new_files := [(L, f)] } st).2).2
        base tasks).vstorage.stats = base.stats := by
  intro nl L f base st th tasks hL hlen hnum hfro hnd hpos
  obtain ⟨hb1, hb2, hb3⟩ := c4_builder_shape nl L f st hL
  set pb := (((newBuilder nl).Apply { new_files := [(L, f)] } st).1.Apply
      { deleted_files := [(L, f.number)] }
      ((newBuilder nl).Apply { new_files := [(L, f)] } st).2).1 with hpb
  set ps := (((newBuilder nl).Apply { new_files := [(L, f)] } st).1.Apply
      { deleted_files := [(L, f.number)] }
      ((newBuilder nl).Apply { new_files := [(L, f)] } st).2).2 with hps
  have hempty : ∀ lvl, (pb.levels.getD lvl {}).added_files = [] ∧
      (pb.levels.getD lvl {}).added_file_slices = [] ∧
      (pb.levels.getD lvl {}).added_frozen_files = [] := by
    intro lvl
    rw [hb2 lvl]
    by_cases hlv : lvl = L <;> simp [hlv]
  have hmiss : ∀ lvl, ∀ n ∈ base.files.getD lvl [],
      n ∉ (pb.levels.getD lvl {}).deleted_files := by
    intro lvl n hn
    rw [hb2 lvl]
    by_cases hlv : lvl = L
    · rw [if_pos hlv]
      intro hne
      have hnn : n = f.number := by simpa using hne
      subst hnn
      by_cases hlen2 : lvl < base.files.length
      · have hmem2 : base.files.getD lvl [] ∈ base.files := by
          rw [List.getD_eq_getElem?_getD, List.getElem?_eq_getElem hlen2]
          exact List.getElem_mem hlen2
        exact hnum _ hmem2 hn
      · have hempty2 : base.files.getD lvl [] = [] := by
          rw [List.getD_eq_getElem?_getD, List.getElem?_eq_none (by omega)]
          rfl
        rw [hempty2] at hn
        exact absurd hn (List.not_mem_nil _)
    · rw [if_neg hlv]
      simp
  simp only [VersionBuilderRep.SaveTo]
  rw [hb1]
  obtain ⟨l1, l2, l3, l4, l5⟩ := levelsFold_passthrough pb th base hempty hmiss
    (List.range nl)
    { store := ps,
      vstorage := { files := List.replicate nl [], frozen_files := [],
                    stats := base.stats },
      merge_tasks := tasks, last_file := none }
    (by
      intro i hi
      simp only [List.length_replicate]
      exact List.mem_range.mp hi)
  obtain ⟨c1, c2, c3⟩ := carryFold_passthrough base.frozen_files
    ((List.range nl).foldl (saveLevelStep pb th base)
      { store := ps,
        vstorage := { files := List.replicate nl [], frozen_files := [],
                      stats := base.stats },
        merge_tasks := tasks, last_file := none })
    (by
      intro n hn
      rw [l5 n]
      have hne : n ≠ f.number := fun hh => hfro (hh ▸ hn)
      show 0 < (ps n).slice_refs
      rw [hb3 n, if_neg hne]
      exact hpos n hn)
    hnd
    (by
      intro n hn
      rw [l2]
      simp)
  refine ⟨?_, ?_, ?_⟩
  · rw [c2, l1]
    exact range_fold_eq_base base.files nl hlen
  · rw [c1, l2]
    simp
  · rw [c3, l3]

/-- C4 witness: adding file 30 at level 1 of a two-level base and deleting it
again reproduces the base's levels, frozen set and statistics. -/
theorem add_delete_round_trip_witness :
    ((1 : Nat) < 2 ∧ roundTripBase.files.length = 2 ∧
      (∀ lvlFiles ∈ roundTripBase.files, roundTripFile.number ∉ lvlFiles) ∧
      roundTripFile.number ∉ roundTripBase.frozen_files ∧
      roundTripBase.frozen_files.Nodup ∧
      (∀ n ∈ roundTripBase.frozen_files, 0 < (roundTripStore n).slice_refs)) ∧
    ((((newBuilder 2).Apply { new_files := [(1, roundTripFile)] } roundTripStore).1.Apply
        { deleted_files := [(1, roundTripFile.number)] }
        ((newBuilder 2).Apply { new_files := [(1, roundTripFile)] }
          roundTripStore).2).1.SaveTo 5
      (((newBuilder 2).Apply { new_files := [(1, roundTripFile)] } roundTripStore).1.Apply
        { deleted_files := [(1, roundTripFile.number)] }
        ((newBuilder 2).Apply { new_files := [(1, roundTripFile)] }
          roundTripStore).2).2
      roundTripBase []).vstorage.files = roundTripBase.files ∧
    ((((newBuilder 2).Apply { new_files := [(1, roundTripFile)] } roundTripStore).1.Apply
        { deleted_files := [(1, roundTripFile.number)] }
        ((newBuilder 2).Apply { new_files := [(1, roundTripFile)] }
          roundTripStore).2).1.SaveTo 5
      (((newBuilder 2).Apply { new_files := [(1, roundTripFile)] } roundTripStore).1.Apply
        { deleted_files := [(1, roundTripFile.number)] }
        ((newBuilder 2).Apply { new_files := [(1, roundTripFile)] }
          roundTripStore).2).2
      roundTripBase []).vstorage.frozen_files = roundTripBase.frozen_files :=
  have h := add_delete_round_trip 2 1 roundTripFile roundTripBase roundTripStore 5 []
    (by decide) (by decide) (by decide) (by decide) (by decide) (by decide)
  ⟨⟨by decide, by decide, by decide, by decide, by decide, by decide⟩, h.1, h.2.1⟩

end RocksTwoPC